import Mathlib

/-!
Verification of the hardware-inventory reconciliation and GPU identity
resolution engine in `src/reporting/device_certificate.py`.

The Python source is shallowly embedded: JSON dictionaries become Lean
structures whose optional keys are `Option` fields (`dict.get(k, d)`
becomes `Option.getD`), Python strings become `String`, Python integers
become `Int`/`Nat`, and the sizes computed with float division and
`round(x, 1)` are modelled exactly over `ℚ` with Python's
round-half-to-even rule.  Python `set` values become `Finset`, with
`sorted(...)` becoming the ascending enumeration `finsetSortAsc`.
-/

/-! ### Python string primitives -/

/-- Python's `str.strip` whitespace class (ASCII part of `\s`). -/
def pyIsSpace (c : Char) : Bool :=
  c = ' ' || c = '\t' || c = '\n' || c = '\r' || c = '\x0b' || c = '\x0c'

/-- Python `str.strip()`: drop leading and trailing whitespace. -/
def pyStrip (s : String) : String :=
  String.mk (((s.toList.dropWhile pyIsSpace).reverse.dropWhile pyIsSpace).reverse)

/-- Substring test on character lists (Python `pat in s`). -/
def hasSubList (pat : List Char) : List Char → Bool
  | [] => pat.isEmpty
  | c :: rest => pat.isPrefixOf (c :: rest) || hasSubList pat rest

/-- Python `pat in s` substring containment. -/
def strContains (s pat : String) : Bool := hasSubList pat.toList s.toList

/-- Python `str.lower()` (per-character, ASCII-faithful). -/
def pyToLower (s : String) : String := String.mk (s.toList.map Char.toLower)

/-- Python `str.upper()` (per-character, ASCII-faithful). -/
def pyToUpper (s : String) : String := String.mk (s.toList.map Char.toUpper)

/-- Word character for the regex `\b` boundary (`[A-Za-z0-9_]`). -/
def isWordChar (c : Char) : Bool := c.isAlphanum || c = '_'

/-- Numeric value of a run of ASCII digits (Python `int` on the match). -/
def digitsVal (ds : List Char) : Nat := ds.foldl (fun n c => 10 * n + (c.toNat - 48)) 0

/-- Tail of the regex `\bGPU\s+(\d+)\b` after the leading `G`:
expects `PU`, then at least one whitespace, then at least one digit,
then a word boundary. -/
def gpuTailMatch (cs : List Char) : Option Nat :=
  match cs with
  | 'P' :: 'U' :: rest =>
    let ws := rest.takeWhile pyIsSpace
    let rest2 := rest.dropWhile pyIsSpace
    if ws.isEmpty then none
    else
      let ds := rest2.takeWhile Char.isDigit
      let rest3 := rest2.dropWhile Char.isDigit
      if ds.isEmpty then none
      else
        match rest3 with
        | [] => some (digitsVal ds)
        | c :: _ => if isWordChar c then none else some (digitsVal ds)
  | _ => none

/-- Left-to-right scan for the leftmost match of `\bGPU\s+(\d+)\b`;
`prev` is the character before the current position (for `\b`). -/
def gpuScan : Option Char → List Char → Option Nat
  | _, [] => none
  | prev, c :: rest =>
    if c = 'G' && (match prev with | none => true | some q => !isWordChar q) then
      match gpuTailMatch rest with
      | some k => some k
      | none => gpuScan (some c) rest
    else gpuScan (some c) rest

/-- `re.search(r'\bGPU\s+(\d+)\b', s)`, returning the captured number. -/
def findGpuNum (s : String) : Option Nat := gpuScan none s.toList

/-! ### Python `sorted` over an integer set -/

theorem insertionSortInt_perm_eq (a b : List Int) (h : a.Perm b) :
    a.insertionSort (· ≤ ·) = b.insertionSort (· ≤ ·) := by
  apply List.eq_of_perm_of_sorted (r := (· ≤ ·))
  · exact (List.perm_insertionSort _ a).trans (h.trans (List.perm_insertionSort _ b).symm)
  · exact List.sorted_insertionSort _ a
  · exact List.sorted_insertionSort _ b

/-- Python `sorted(s)` for a set of integers: the ascending enumeration of
the `Finset`. -/
def finsetSortAsc (s : Finset Int) : List Int :=
  Quot.lift (fun l : List Int => l.insertionSort (· ≤ ·))
    (fun a b h => insertionSortInt_perm_eq a b h) s.val

theorem mem_finsetSortAsc (s : Finset Int) (a : Int) : a ∈ finsetSortAsc s ↔ a ∈ s := by
  rcases s with ⟨m, hm⟩
  induction m using Quotient.inductionOn with
  | h l =>
    show a ∈ l.insertionSort (· ≤ ·) ↔ _
    rw [(List.perm_insertionSort _ l).mem_iff]
    rfl

theorem length_finsetSortAsc (s : Finset Int) : (finsetSortAsc s).length = s.card := by
  rcases s with ⟨m, hm⟩
  induction m using Quotient.inductionOn with
  | h l =>
    show (l.insertionSort (· ≤ ·)).length = _
    rw [(List.perm_insertionSort _ l).length_eq]
    rfl

/-! ### GPU identity resolver (`_resolve_gpu_id`, `_find_remap_skipped_gpus`,
`_build_gpu_id_map`) -/

/-- One DCGM per-device result entry: the optional explicit `gpu_id`
field and the free-text `info` string. -/
structure DiagEntry where
  gpuId : Option Int
  info : String
deriving DecidableEq, Repr

/-- `info_to_str` on a string payload: strip surrounding whitespace. -/
def info_to_str (s : String) : String := pyStrip s

/-- `_resolve_gpu_id`: explicit `gpu_id` field first, then the
`GPU <digits>` pattern in the info string. -/
def resolve_gpu_id (r : DiagEntry) : Option Int :=
  match r.gpuId with
  | some g => some g
  | none =>
    match findGpuNum (info_to_str r.info) with
    | some k => some (k : Int)
    | none => none

/-- Whether an entry's info text mentions `row remapping`. -/
def hasRemap (r : DiagEntry) : Bool :=
  strContains (pyToLower (info_to_str r.info)) "row remapping"

/-- Pass-1 value for one entry: resolved id accepted only in `[0, n)`. -/
def pass1Val (n : Nat) (r : DiagEntry) : Option Int :=
  match resolve_gpu_id r with
  | some g => if 0 ≤ g ∧ g < (n : Int) then some g else none
  | none => none

/-- Pass 1 of `_build_gpu_id_map`. -/
def gpuPass1 (rs : List DiagEntry) (n : Nat) : List (Option Int) := rs.map (pass1Val n)

/-- `{g for g in mapping if g is not None}`. -/
def assignedIds (m : List (Option Int)) : Finset Int := (m.filterMap id).toFinset

/-- Indices that are still unresolved and whose info mentions
`row remapping` (Pass 2 candidates). -/
def remapIndices (rs : List DiagEntry) (m : List (Option Int)) : List Nat :=
  (List.range rs.length).filter
    (fun i => (m.getD i (some 0)).isNone && hasRemap (rs.getD i ⟨none, ""⟩))

/-- Assign `mapping[idx] = gid` for each `(idx, gid)` pair in order. -/
def setPairs (m : List (Option Int)) (ps : List (Nat × Int)) : List (Option Int) :=
  ps.foldl (fun acc p => acc.set p.1 (some p.2)) m

/-- Pass 2 of `_build_gpu_id_map`: positional pairing of unresolved
remap entries against the sorted unassigned part of the skipped set,
performed only when the two counts agree. -/
def gpuPass2 (rs : List DiagEntry) (remapSkipped : Finset Int)
    (m : List (Option Int)) : List (Option Int) :=
  let ris := remapIndices rs m
  let unassigned := finsetSortAsc (remapSkipped \ assignedIds m)
  if ris ≠ [] ∧ ris.length = unassigned.length then setPairs m (ris.zip unassigned) else m

/-- `set(range(n_gpus))` as a `Finset` of ids. -/
def allIds (n : Nat) : Finset Int := (Finset.range n).image (fun k : Nat => (k : Int))

/-- `sorted(set(range(n_gpus)) - known_ids)`. -/
def missingIds (n : Nat) (m : List (Option Int)) : List Int :=
  finsetSortAsc ((allIds n) \ assignedIds m)

/-- Array positions still unresolved before Pass 3. -/
def unknownIdx (m : List (Option Int)) : List Nat :=
  (List.range m.length).filter (fun i => (m.getD i (some 0)).isNone)

/-- Pass 3 of `_build_gpu_id_map`: elimination when the counts agree,
otherwise the array-index fallback clamped into `[0, n)` via `0`. -/
def gpuPass3 (n : Nat) (m : List (Option Int)) : List (Option Int) :=
  if (missingIds n m).length = (unknownIdx m).length then
    setPairs m ((unknownIdx m).zip (missingIds n m))
  else
    (unknownIdx m).foldl (fun acc i => acc.set i (some (if i < n then (i : Int) else 0))) m

/-- `_build_gpu_id_map`: the three passes in order. -/
def build_gpu_id_map (rs : List DiagEntry) (n : Nat) (remapSkipped : Finset Int) :
    List (Option Int) :=
  gpuPass3 n (gpuPass2 rs remapSkipped (gpuPass1 rs n))

/-- The set of in-range ids found in one test's result array
(the same per-entry logic as Pass 1). -/
def foundIds (t : List DiagEntry) (n : Nat) : Finset Int := (t.filterMap (pass1Val n)).toFinset

/-- `_find_remap_skipped_gpus`: union, over tests that both mention
`row remapping` and carry some resolved ids, of the ids absent from
that test. -/
def find_remap_skipped_gpus (tests : List (List DiagEntry)) (n : Nat) : Finset Int :=
  tests.foldl
    (fun acc t =>
      if t.any hasRemap ∧ (foundIds t n).Nonempty then acc ∪ (allIds n \ foundIds t n) else acc)
    ∅

/-! ### Helper lemmas about `setPairs` and the passes -/

theorem setPairs_nil (m : List (Option Int)) : setPairs m [] = m := rfl

theorem setPairs_cons (m : List (Option Int)) (p : Nat × Int) (t : List (Nat × Int)) :
    setPairs m (p :: t) = setPairs (m.set p.1 (some p.2)) t := rfl

theorem setPairs_length (ps : List (Nat × Int)) (m : List (Option Int)) :
    (setPairs m ps).length = m.length := by
  induction ps generalizing m with
  | nil => rfl
  | cons p t ih => rw [setPairs_cons, ih, List.length_set]

theorem getElem?_setPairs_none (ps : List (Nat × Int)) (m : List (Option Int)) (i : Nat)
    (h : (setPairs m ps)[i]? = some none) : m[i]? = some none ∧ i ∉ ps.map Prod.fst := by
  induction ps generalizing m with
  | nil => simpa [setPairs_nil] using h
  | cons p t ih =>
    rw [setPairs_cons] at h
    obtain ⟨h1, h2⟩ := ih _ h
    by_cases hip : i = p.1
    · rw [hip] at h1
      rcases Nat.lt_or_ge p.1 m.length with hlt | hge
      · rw [List.getElem?_set_self (by simpa using hlt)] at h1
        cases h1
      · rw [List.set_eq_of_length_le hge] at h1
        rw [List.getElem?_eq_none hge] at h1
        cases h1
    · rw [List.getElem?_set_ne (fun he => hip he.symm)] at h1
      refine ⟨h1, ?_⟩
      simp only [List.map_cons, List.mem_cons]
      rintro (he | he)
      · exact hip he
      · exact h2 he

theorem getElem?_setPairs_untouched (ps : List (Nat × Int)) (m : List (Option Int)) (i : Nat)
    (h : i ∉ ps.map Prod.fst) : (setPairs m ps)[i]? = m[i]? := by
  induction ps generalizing m with
  | nil => rfl
  | cons p t ih =>
    simp only [List.map_cons, List.mem_cons, not_or] at h
    rw [setPairs_cons, ih _ h.2, List.getElem?_set_ne (fun he => h.1 he.symm)]

theorem setPairs_get_of_nodup (ps : List (Nat × Int)) (m : List (Option Int))
    (hnd : (ps.map Prod.fst).Nodup) (p : Nat) (v : Int)
    (hmem : (p, v) ∈ ps) (hlt : p < m.length) :
    (setPairs m ps)[p]? = some (some v) := by
  induction ps generalizing m with
  | nil => cases hmem
  | cons q t ih =>
    simp only [List.map_cons, List.nodup_cons] at hnd
    rcases List.mem_cons.mp hmem with he | ht
    · have hq1 : q.1 = p := by rw [← he]
      have hnot : p ∉ t.map Prod.fst := hq1 ▸ hnd.1
      rw [setPairs_cons, getElem?_setPairs_untouched _ _ _ hnot, ← he]
      exact List.getElem?_set_eq (by simpa using (hq1 ▸ hlt))
    · have hp1 : p ≠ q.1 := by
        intro hpe
        exact hnd.1 (hpe ▸ (List.mem_map.mpr ⟨(p, v), ht, rfl⟩))
      rw [setPairs_cons]
      exact ih _ hnd.2 ht (by simpa using hlt)

theorem mem_setPairs (ps : List (Nat × Int)) (m : List (Option Int)) (o : Option Int)
    (h : o ∈ setPairs m ps) : o ∈ m ∨ ∃ q ∈ ps, o = some q.2 := by
  induction ps generalizing m with
  | nil => exact Or.inl h
  | cons p t ih =>
    rw [setPairs_cons] at h
    rcases ih _ h with hm | ⟨q, hq, rfl⟩
    · rcases List.mem_or_eq_of_mem_set hm with hm' | rfl
      · exact Or.inl hm'
      · exact Or.inr ⟨p, List.mem_cons_self _ _, rfl⟩
    · exact Or.inr ⟨q, List.mem_cons_of_mem _ hq, rfl⟩

theorem foldl_set_eq_setPairs (l : List Nat) (f : Nat → Int) (m : List (Option Int)) :
    l.foldl (fun acc i => acc.set i (some (f i))) m = setPairs m (l.map (fun i => (i, f i))) := by
  induction l generalizing m with
  | nil => rfl
  | cons a t ih => rw [List.map_cons, setPairs_cons]; exact ih _

/-- All `some` values of a candidate mapping lie in `[0, n)`. -/
def mapInRange (n : Nat) (m : List (Option Int)) : Prop :=
  ∀ g : Int, some g ∈ m → 0 ≤ g ∧ g < (n : Int)

theorem mem_unknownIdx (m : List (Option Int)) (i : Nat) :
    i ∈ unknownIdx m ↔ i < m.length ∧ m[i]? = some none := by
  simp only [unknownIdx, List.mem_filter, List.mem_range]
  constructor
  · rintro ⟨hi, hd⟩
    refine ⟨hi, ?_⟩
    obtain ⟨o, ho⟩ : ∃ o, m[i]? = some o := ⟨m[i], List.getElem?_eq_getElem hi⟩
    rw [List.getD_eq_getElem?_getD, ho] at hd
    cases o with
    | none => rw [ho]
    | some g => simp at hd
  · rintro ⟨hi, ho⟩
    refine ⟨hi, ?_⟩
    rw [List.getD_eq_getElem?_getD, ho]
    rfl

theorem nodup_unknownIdx (m : List (Option Int)) : (unknownIdx m).Nodup :=
  (List.nodup_range _).filter _

theorem gpuPass1_length (rs : List DiagEntry) (n : Nat) :
    (gpuPass1 rs n).length = rs.length := List.length_map _ _

theorem gpuPass1_inRange (rs : List DiagEntry) (n : Nat) : mapInRange n (gpuPass1 rs n) := by
  intro g hg
  obtain ⟨r, _, hval⟩ := List.mem_map.mp hg
  rcases hres : resolve_gpu_id r with _ | g' <;> simp only [pass1Val, hres] at hval
  · cases hval
  · split at hval
    · rename_i hguard
      cases hval
      exact hguard
    · cases hval

theorem gpuPass2_length (rs : List DiagEntry) (s : Finset Int) (m : List (Option Int)) :
    (gpuPass2 rs s m).length = m.length := by
  simp only [gpuPass2]
  split
  · exact setPairs_length _ _
  · rfl

theorem gpuPass2_inRange (rs : List DiagEntry) (s : Finset Int) (m : List (Option Int)) (n : Nat)
    (hs : ∀ g ∈ s, 0 ≤ g ∧ g < (n : Int)) (hm : mapInRange n m) :
    mapInRange n (gpuPass2 rs s m) := by
  simp only [gpuPass2]
  split
  · intro g hg
    rcases mem_setPairs _ _ _ hg with hmem | ⟨q, hq, he⟩
    · exact hm g hmem
    · cases he
      have h2 := (List.mem_zip hq).2
      have h3 := (mem_finsetSortAsc _ _).mp h2
      exact hs _ (Finset.mem_sdiff.mp h3).1
  · exact hm

theorem gpuPass3_length (n : Nat) (m : List (Option Int)) :
    (gpuPass3 n m).length = m.length := by
  unfold gpuPass3
  split
  · exact setPairs_length _ _
  · rw [foldl_set_eq_setPairs]
    exact setPairs_length _ _

theorem gpuPass3_inRange (n : Nat) (m : List (Option Int)) (hn : 1 ≤ n)
    (hm : mapInRange n m) : mapInRange n (gpuPass3 n m) := by
  unfold gpuPass3
  split
  · intro g hg
    rcases mem_setPairs _ _ _ hg with hmem | ⟨q, hq, he⟩
    · exact hm g hmem
    · cases he
      have h2 := (List.mem_zip hq).2
      have h3 := (mem_finsetSortAsc _ _).mp h2
      have h4 := (Finset.mem_sdiff.mp h3).1
      obtain ⟨k, hk, he'⟩ := Finset.mem_image.mp h4
      refine he' ▸ ⟨Int.natCast_nonneg k, ?_⟩
      exact_mod_cast Finset.mem_range.mp hk
  · rw [foldl_set_eq_setPairs]
    intro g hg
    rcases mem_setPairs _ _ _ hg with hmem | ⟨q, hq, he⟩
    · exact hm g hmem
    · cases he
      obtain ⟨i, _, he'⟩ := List.mem_map.mp hq
      cases he'
      dsimp only
      by_cases hin : i < n
      · rw [if_pos hin]
        exact ⟨Int.natCast_nonneg i, by exact_mod_cast hin⟩
      · rw [if_neg hin]
        exact ⟨le_refl 0, by exact_mod_cast hn⟩

theorem gpuPass3_total (n : Nat) (m : List (Option Int)) (i : Nat) (hi : i < m.length) :
    (gpuPass3 n m)[i]? ≠ some none := by
  intro h
  unfold gpuPass3 at h
  split at h
  · rename_i hlen
    obtain ⟨h1, h2⟩ := getElem?_setPairs_none _ _ _ h
    have hfst : ((unknownIdx m).zip (missingIds n m)).map Prod.fst = unknownIdx m :=
      List.map_fst_zip _ _ (le_of_eq hlen.symm)
    rw [hfst] at h2
    exact h2 ((mem_unknownIdx m i).mpr ⟨hi, h1⟩)
  · rw [foldl_set_eq_setPairs] at h
    obtain ⟨h1, h2⟩ := getElem?_setPairs_none _ _ _ h
    rw [List.map_map] at h2
    have : (Prod.fst ∘ fun i => (i, if i < n then (i : Int) else 0)) = id := rfl
    rw [this, List.map_id] at h2
    exact h2 ((mem_unknownIdx m i).mpr ⟨hi, h1⟩)

theorem find_remap_skipped_subset (tests : List (List DiagEntry)) (n : Nat) :
    ∀ g ∈ find_remap_skipped_gpus tests n, 0 ≤ g ∧ g < (n : Int) := by
  unfold find_remap_skipped_gpus
  suffices h : ∀ (acc : Finset Int), (∀ g ∈ acc, 0 ≤ g ∧ g < (n : Int)) →
      ∀ g ∈ tests.foldl
        (fun acc t =>
          if t.any hasRemap ∧ (foundIds t n).Nonempty then acc ∪ (allIds n \ foundIds t n)
          else acc) acc,
      0 ≤ g ∧ g < (n : Int) by
    exact h ∅ (by intro g hg; cases hg)
  induction tests with
  | nil => intro acc hacc; simpa using hacc
  | cons t ts ih =>
    intro acc hacc g hg
    rw [List.foldl_cons] at hg
    refine ih _ ?_ g hg
    intro g' hg'
    split at hg'
    · rcases Finset.mem_union.mp hg' with ha | hb
      · exact hacc _ ha
      · have h4 := (Finset.mem_sdiff.mp hb).1
        obtain ⟨k, hk, he'⟩ := Finset.mem_image.mp h4
        refine he' ▸ ⟨Int.natCast_nonneg k, ?_⟩
        exact_mod_cast Finset.mem_range.mp hk
    · exact hacc _ hg'

theorem gpuPass2_of_total (rs : List DiagEntry) (s : Finset Int) (m : List (Option Int))
    (hlen : m.length = rs.length)
    (h : ∀ i, i < rs.length → m[i]? ≠ some none) : gpuPass2 rs s m = m := by
  have hri : remapIndices rs m = [] := by
    unfold remapIndices
    rw [List.filter_eq_nil_iff]
    intro i hi
    rw [List.mem_range] at hi
    obtain ⟨o, ho⟩ : ∃ o, m[i]? = some o :=
      ⟨m[i], List.getElem?_eq_getElem (by rw [hlen]; exact hi)⟩
    cases o with
    | none => exact absurd ho (h i hi)
    | some g =>
      rw [List.getD_eq_getElem?_getD, ho]
      simp
  simp only [gpuPass2, hri]
  simp

theorem gpuPass3_of_total (n : Nat) (m : List (Option Int))
    (h : ∀ i, i < m.length → m[i]? ≠ some none) : gpuPass3 n m = m := by
  have hu : unknownIdx m = [] := by
    unfold unknownIdx
    rw [List.filter_eq_nil_iff]
    intro i hi
    rw [List.mem_range] at hi
    obtain ⟨o, ho⟩ : ∃ o, m[i]? = some o := ⟨m[i], List.getElem?_eq_getElem hi⟩
    cases o with
    | none => exact absurd ho (h i hi)
    | some g =>
      rw [List.getD_eq_getElem?_getD, ho]
      simp
  unfold gpuPass3
  rw [hu]
  split
  · simp [setPairs]
  · rfl

/-- C1 (amended to require at least one accelerator): for every diagnostic
result array and accelerator count `n ≥ 1`, `_build_gpu_id_map`, run with the
remap-skipped set `_find_remap_skipped_gpus` computes, assigns every array
position exactly one id lying in `[0, n)` and never fails; and whenever the
Pass-3 elimination sizes mismatch, an unresolved position `p` receives id `p`
when `p < n` and id `0` otherwise. -/
theorem c1_gpu_map_total_in_range (tests : List (List DiagEntry)) (rs : List DiagEntry)
    (n : Nat) (hn : 1 ≤ n) :
    (∀ i, i < rs.length →
      ∃ g, (build_gpu_id_map rs n (find_remap_skipped_gpus tests n))[i]? = some (some g) ∧
        0 ≤ g ∧ g < (n : Int)) ∧
    (∀ (m : List (Option Int)) (p : Nat), p < m.length → m[p]? = some none →
      (missingIds n m).length ≠ (unknownIdx m).length →
      (gpuPass3 n m)[p]? = some (some (if p < n then (p : Int) else 0))) := by
  constructor
  · intro i hi
    unfold build_gpu_id_map
    set skp := find_remap_skipped_gpus tests n with hskp
    set m2 := gpuPass2 rs skp (gpuPass1 rs n) with hm2
    have hlen2 : m2.length = rs.length := by
      rw [hm2, gpuPass2_length, gpuPass1_length]
    have hi2 : i < m2.length := by rw [hlen2]; exact hi
    have hlen3 : (gpuPass3 n m2).length = m2.length := gpuPass3_length n m2
    obtain ⟨o, ho⟩ : ∃ o, (gpuPass3 n m2)[i]? = some o :=
      ⟨_, List.getElem?_eq_getElem (by rw [hlen3]; exact hi2)⟩
    have hne := gpuPass3_total n m2 i hi2
    cases o with
    | none => exact absurd ho hne
    | some g =>
      have hir : mapInRange n (gpuPass3 n m2) :=
        gpuPass3_inRange n m2 hn
          (gpuPass2_inRange rs skp _ n (find_remap_skipped_subset tests n)
            (gpuPass1_inRange rs n))
      exact ⟨g, ho, hir g (List.getElem?_mem ho)⟩
  · intro m p hp hnone hmis
    unfold gpuPass3
    rw [if_neg hmis, foldl_set_eq_setPairs]
    refine setPairs_get_of_nodup _ _ ?_ p _ ?_ hp
    · rw [List.map_map]
      have hco : (Prod.fst ∘ fun i => (i, if i < n then (i : Int) else 0)) = id := rfl
      rw [hco, List.map_id]
      exact nodup_unknownIdx m
    · exact List.mem_map.mpr ⟨p, (mem_unknownIdx m p).mpr ⟨hp, hnone⟩, rfl⟩

/-- Witness for C1 at a concrete input. -/
theorem c1_gpu_map_total_in_range_witness :
    ∃ g, (build_gpu_id_map [⟨none, "no id here"⟩] 1 (find_remap_skipped_gpus [] 1))[0]? =
        some (some g) ∧ 0 ≤ g ∧ g < ((1 : Nat) : Int) :=
  (c1_gpu_map_total_in_range [] [⟨none, "no id here"⟩] 1 (by decide)).1 0 (by decide)

/-- C1 as literally stated fails at accelerator count `N = 0`: the single
entry of the array receives id `0`, which does not lie in `[0, 0)`. -/
theorem c1_gpu_map_n_zero_cex :
    (build_gpu_id_map [⟨none, ""⟩] 0 (find_remap_skipped_gpus [] 0))[0]? = some (some 0) ∧
    ¬ (0 ≤ (0 : Int) ∧ (0 : Int) < ((0 : Nat) : Int)) := by
  constructor
  · decide
  · decide

/-- Under the all-explicit hypotheses of C3, Pass 1 reproduces the
explicit ids verbatim. -/
theorem gpuPass1_eq_map_gpuId (rs : List DiagEntry)
    (hall : ∀ r ∈ rs, r.gpuId.isSome = true)
    (hrange : ∀ g ∈ rs.filterMap DiagEntry.gpuId, 0 ≤ g ∧ g < (rs.length : Int)) :
    gpuPass1 rs rs.length = rs.map DiagEntry.gpuId := by
  apply List.map_eq_map_iff.mpr
  intro r hr
  obtain ⟨g, hg⟩ := Option.isSome_iff_exists.mp (hall r hr)
  have hmem : g ∈ rs.filterMap DiagEntry.gpuId := List.mem_filterMap.mpr ⟨r, hr, hg⟩
  simp only [pass1Val, resolve_gpu_id, hg]
  rw [if_pos (hrange g hmem)]

/-- C3: for any result array in which every entry carries an explicit,
distinct device id in `[0, N)` (`N` the array length), the produced mapping
assigns each position exactly the id its entry carries, for any
remap-skipped set, hence independent of the order of entries. -/
theorem c3_gpu_identity_when_all_explicit (rs : List DiagEntry) (skp : Finset Int)
    (hall : ∀ r ∈ rs, r.gpuId.isSome = true)
    (hrange : ∀ g ∈ rs.filterMap DiagEntry.gpuId, 0 ≤ g ∧ g < (rs.length : Int))
    (hnd : (rs.filterMap DiagEntry.gpuId).Nodup) :
    ∀ i : Nat, (build_gpu_id_map rs rs.length skp)[i]? = (rs[i]?).map DiagEntry.gpuId := by
  intro i
  have hmap : gpuPass1 rs rs.length = rs.map DiagEntry.gpuId :=
    gpuPass1_eq_map_gpuId rs hall hrange
  have htotal : ∀ j, j < rs.length → (rs.map DiagEntry.gpuId)[j]? ≠ some none := by
    intro j hj hcon
    rw [List.getElem?_map] at hcon
    obtain ⟨r, hr⟩ : ∃ r, rs[j]? = some r := ⟨rs[j], List.getElem?_eq_getElem hj⟩
    rw [hr] at hcon
    simp only [Option.map_some'] at hcon
    have hs := hall r (List.getElem?_mem hr)
    rw [Option.some_inj.mp hcon] at hs
    cases hs
  unfold build_gpu_id_map
  rw [hmap, gpuPass2_of_total _ _ _ (by simp) htotal,
    gpuPass3_of_total _ _ (by simpa using htotal), List.getElem?_map]

/-- Witness for C3 at a concrete two-entry array given in swapped order. -/
theorem c3_gpu_identity_when_all_explicit_witness :
    (build_gpu_id_map [⟨some 1, ""⟩, ⟨some 0, ""⟩] 2 ∅)[0]? = some (some 1) := by
  have h := c3_gpu_identity_when_all_explicit [⟨some 1, ""⟩, ⟨some 0, ""⟩] ∅
    (by decide) (by decide) (by decide) 0
  simpa using h

theorem mem_to_getElem? {α : Type} (l : List α) (a : α) (h : a ∈ l) :
    ∃ i : Nat, l[i]? = some a := by
  obtain ⟨⟨i, hi⟩, he⟩ := List.mem_iff_get.mp h
  exact ⟨i, by rw [List.getElem?_eq_getElem hi]; simpa [List.get_eq_getElem] using he⟩

theorem lt_of_getElem?_eq_some {α : Type} (l : List α) (i : Nat) (a : α)
    (h : l[i]? = some a) : i < l.length := by
  by_contra hge
  rw [List.getElem?_eq_none (Nat.le_of_not_lt hge)] at h
  cases h

/-- C2: in the remap-skip scenario with `N = 8` — seven entries carrying the
explicit ids `{0,1,2,3,4,6,7}` and the remaining entry mentioning
`row remapping` while resolving to no id — the GPU identity resolver assigns
id `5` to the unresolved entry, wherever it sits in the array. -/
theorem c2_remap_skip_resolves_to_five (rs : List DiagEntry) (p : Nat)
    (hlen : rs.length = 8) (hp : p < 8)
    (hres : resolve_gpu_id (rs.getD p ⟨none, ""⟩) = none)
    (hrem : hasRemap (rs.getD p ⟨none, ""⟩) = true)
    (hoth : ∀ i, i < 8 → i ≠ p → ((rs.getD i ⟨none, ""⟩).gpuId).isSome = true)
    (hset : (rs.filterMap DiagEntry.gpuId).toFinset = ({0, 1, 2, 3, 4, 6, 7} : Finset Int)) :
    (build_gpu_id_map rs 8 (find_remap_skipped_gpus [rs] 8))[p]? = some (some 5) := by
  have hplen : p < rs.length := by rw [hlen]; exact hp
  have hget : ∀ i, i < rs.length → rs[i]? = some (rs.getD i ⟨none, ""⟩) := by
    intro i hi
    obtain ⟨a, ha⟩ : ∃ a, rs[i]? = some a := ⟨rs[i], List.getElem?_eq_getElem hi⟩
    rw [ha, List.getD_eq_getElem?_getD, ha]
    rfl
  have hpnone : (rs.getD p ⟨none, ""⟩).gpuId = none := by
    rcases hg : (rs.getD p ⟨none, ""⟩).gpuId with _ | g
    · rfl
    · exfalso
      have h1 := hres
      simp only [resolve_gpu_id, hg] at h1
      exact Option.noConfusion h1
  have hvals : ∀ i, i < rs.length →
      pass1Val 8 (rs.getD i ⟨none, ""⟩) = (rs.getD i ⟨none, ""⟩).gpuId := by
    intro i hi
    by_cases hip : i = p
    · rw [hip]
      simp only [pass1Val, hres, hpnone]
    · have hs := hoth i (by rw [← hlen]; exact hi) hip
      obtain ⟨g, hg⟩ := Option.isSome_iff_exists.mp hs
      have hmem : g ∈ rs.filterMap DiagEntry.gpuId :=
        List.mem_filterMap.mpr ⟨rs.getD i ⟨none, ""⟩, List.getElem?_mem (hget i hi), hg⟩
      have hginS : g ∈ ({0, 1, 2, 3, 4, 6, 7} : Finset Int) := by
        rw [← hset]; exact List.mem_toFinset.mpr hmem
      have hrange : 0 ≤ g ∧ g < ((8 : Nat) : Int) := by
        simp only [Finset.mem_insert, Finset.mem_singleton] at hginS
        rcases hginS with rfl | rfl | rfl | rfl | rfl | rfl | rfl <;> decide
      simp only [pass1Val, resolve_gpu_id, hg]
      rw [if_pos hrange]
  have hvmem : ∀ r ∈ rs, pass1Val 8 r = r.gpuId := by
    intro r hr
    obtain ⟨i, hi⟩ := mem_to_getElem? rs r hr
    have hlt := lt_of_getElem?_eq_some rs i r hi
    have h2 := hget i hlt
    rw [hi] at h2
    cases h2
    exact hvals i hlt
  have hm : gpuPass1 rs 8 = rs.map DiagEntry.gpuId := List.map_eq_map_iff.mpr hvmem
  have hfm : rs.filterMap (pass1Val 8) = rs.filterMap DiagEntry.gpuId := by
    have h1 : (gpuPass1 rs 8).filterMap id = rs.filterMap (pass1Val 8) := by
      unfold gpuPass1
      rw [List.filterMap_map]
      rfl
    have h2 : (gpuPass1 rs 8).filterMap id = rs.filterMap DiagEntry.gpuId := by
      rw [hm, List.filterMap_map]
      rfl
    rw [← h1, h2]
  have hassigned : assignedIds (gpuPass1 rs 8) = ({0, 1, 2, 3, 4, 6, 7} : Finset Int) := by
    unfold assignedIds
    rw [hm, List.filterMap_map]
    exact hset
  have hfound : foundIds rs 8 = ({0, 1, 2, 3, 4, 6, 7} : Finset Int) := by
    unfold foundIds
    rw [hfm]
    exact hset
  have hany : rs.any hasRemap = true :=
    List.any_of_mem (List.getElem?_mem (hget p hplen)) hrem
  have hnemp : (foundIds rs 8).Nonempty := by rw [hfound]; exact ⟨0, by decide⟩
  have hskip : find_remap_skipped_gpus [rs] 8 =
      allIds 8 \ ({0, 1, 2, 3, 4, 6, 7} : Finset Int) := by
    unfold find_remap_skipped_gpus
    rw [List.foldl_cons, List.foldl_nil, if_pos ⟨hany, hnemp⟩, hfound, Finset.empty_union]
  have h5 : allIds 8 \ ({0, 1, 2, 3, 4, 6, 7} : Finset Int) = {5} := by decide
  have hmlen : (gpuPass1 rs 8).length = rs.length := gpuPass1_length rs 8
  have hmget : ∀ i, i < rs.length →
      (gpuPass1 rs 8)[i]? = some ((rs.getD i ⟨none, ""⟩).gpuId) := by
    intro i hi
    unfold gpuPass1
    rw [List.getElem?_map, hget i hi]
    simp only [Option.map_some']
    rw [hvals i hi]
  have hremIdx : remapIndices rs (gpuPass1 rs 8) = [p] := by
    unfold remapIndices
    have hcong : ∀ i ∈ List.range rs.length,
        (((gpuPass1 rs 8).getD i (some 0)).isNone && hasRemap (rs.getD i ⟨none, ""⟩)) =
          (i == p) := by
      intro i hi
      rw [List.mem_range] at hi
      rw [List.getD_eq_getElem?_getD, hmget i hi]
      by_cases hip : i = p
      · rw [hip, hpnone, hrem]
        simp
      · have hs := hoth i (by rw [← hlen]; exact hi) hip
        obtain ⟨g, hg⟩ := Option.isSome_iff_exists.mp hs
        rw [hg]
        simp [hip]
    rw [List.filter_congr hcong, hlen]
    interval_cases p <;> rfl
  have hpass2 : gpuPass2 rs (find_remap_skipped_gpus [rs] 8) (gpuPass1 rs 8) =
      (gpuPass1 rs 8).set p (some 5) := by
    simp only [gpuPass2]
    rw [hremIdx, hskip, h5, hassigned]
    have hsd : ({5} : Finset Int) \ ({0, 1, 2, 3, 4, 6, 7} : Finset Int) = {5} := by decide
    rw [hsd]
    have hsort : finsetSortAsc ({5} : Finset Int) = [5] := by decide
    rw [hsort]
    rw [if_pos ⟨by simp, rfl⟩]
    rfl
  have hm'len : ((gpuPass1 rs 8).set p (some 5)).length = rs.length := by
    rw [List.length_set, hmlen]
  have htotal : ∀ i, i < ((gpuPass1 rs 8).set p (some 5)).length →
      ((gpuPass1 rs 8).set p (some 5))[i]? ≠ some none := by
    intro i hi hcon
    rw [hm'len] at hi
    by_cases hip : i = p
    · rw [hip, List.getElem?_set_self (by rw [hmlen]; exact hplen)] at hcon
      cases hcon
    · rw [List.getElem?_set_ne (fun he => hip he.symm), hmget i hi] at hcon
      have hs := hoth i (by rw [← hlen]; exact hi) hip
      rw [Option.some_inj.mp hcon] at hs
      simp at hs
  unfold build_gpu_id_map
  rw [hpass2, gpuPass3_of_total _ _ htotal]
  exact List.getElem?_set_self (by rw [hmlen]; exact hplen)

/-- Witness for C2: the concrete eight-entry array with the remap entry at
position 5, carrying ids `0,1,2,3,4,6,7` elsewhere. -/
theorem c2_remap_skip_resolves_to_five_witness :
    (build_gpu_id_map
      [⟨some 0, ""⟩, ⟨some 1, ""⟩, ⟨some 2, ""⟩, ⟨some 3, ""⟩, ⟨some 4, ""⟩,
       ⟨none, "row remapping detected"⟩, ⟨some 6, ""⟩, ⟨some 7, ""⟩] 8
      (find_remap_skipped_gpus
        [[⟨some 0, ""⟩, ⟨some 1, ""⟩, ⟨some 2, ""⟩, ⟨some 3, ""⟩, ⟨some 4, ""⟩,
          ⟨none, "row remapping detected"⟩, ⟨some 6, ""⟩, ⟨some 7, ""⟩]] 8))[5]? =
      some (some 5) :=
  c2_remap_skip_resolves_to_five _ 5 (by decide) (by decide) (by decide) (by decide)
    (by decide) (by decide)

/-! ### Issue filter and verdict derivation (`generate_report`) -/

/-- One reported issue: its free-text description and the stage label the
report tagged it with (`c["source"] = label`). -/
structure Issue where
  issue : String
  source : String
deriving DecidableEq, Repr

/-- The verdict-relevant part of one stage payload: the raw overall verdict
(`data["verdict"]["overall"]`, `"N/A"` when missing) and the issue
descriptions under `data["verdict"]["issues"]`. -/
structure StageData where
  overall : String
  issues : List String
deriving DecidableEq, Repr

/-- `stages = [("Install", install), ("Inventory", inventory), ("Stress Test", stress)]`. -/
def stagesList (install inventory stress : Option StageData) :
    List (String × Option StageData) :=
  [("Install", install), ("Inventory", inventory), ("Stress Test", stress)]

/-- Collect the issues of every present stage, in stage order, each tagged
with its stage label. -/
def collectIssues (stages : List (String × Option StageData)) : List Issue :=
  stages.bind fun s =>
    match s.2 with
    | some sd => sd.issues.map (fun t => ⟨t, s.1⟩)
    | none => []

/-- The two suppression rules of `generate_report`: `counters unavailable`
issues are dropped only when the stress payload is present, and `pcie link
degradation` issues are always dropped (case-insensitive substring match). -/
def filterIssues (stressPresent : Bool) (issues : List Issue) : List Issue :=
  let l1 :=
    if stressPresent then
      issues.filter (fun i => !(strContains (pyToLower i.issue) "counters unavailable"))
    else issues
  l1.filter (fun i => !(strContains (pyToLower i.issue) "pcie link degradation"))

/-- The filtered issue list of `generate_report`. -/
def filteredIssues (install inventory stress : Option StageData) : List Issue :=
  filterIssues stress.isSome (collectIssues (stagesList install inventory stress))

/-- Per-stage verdict after filtering: a present stage keeps its raw verdict
except that `WARN` is upgraded to `PASS` when no issue tagged with its label
survived filtering; a missing stage reports `N/A`. -/
def stageVerdict (remaining : List String) (l : String) (d : Option StageData) : String :=
  match d with
  | some sd => if sd.overall = "WARN" ∧ l ∉ remaining then "PASS" else sd.overall
  | none => "N/A"

/-- The per-stage verdicts of `generate_report` after issue filtering. -/
def generateVerdicts (install inventory stress : Option StageData) :
    List (String × String) :=
  let remaining := (filteredIssues install inventory stress).map Issue.source
  (stagesList install inventory stress).map (fun s => (s.1, stageVerdict remaining s.1 s.2))

/-- C4 fails as literally stated: an issue mentioning `counters unavailable`
that also mentions `pcie link degradation` is suppressed by the second rule
even though no stress payload exists. -/
theorem c4_counters_unavailable_cex :
    strContains (pyToLower "ECC counters unavailable; PCIe link degradation")
        "counters unavailable" = true ∧
    filteredIssues none
      (some ⟨"WARN", ["ECC counters unavailable; PCIe link degradation"]⟩) none = [] := by
  constructor
  · decide
  · decide

/-- C4 (amended): an issue whose description contains `counters unavailable`
and does not contain `pcie link degradation` is present in the filtered issue
list iff no stress payload exists. -/
theorem c4_counters_unavailable_iff_no_stress
    (install inventory stress : Option StageData) (iss : Issue)
    (hmem : iss ∈ collectIssues (stagesList install inventory stress))
    (hcu : strContains (pyToLower iss.issue) "counters unavailable" = true)
    (hpcie : strContains (pyToLower iss.issue) "pcie link degradation" = false) :
    iss ∈ filteredIssues install inventory stress ↔ stress = none := by
  rcases stress with _ | sd
  · have he : filteredIssues install inventory none =
        (collectIssues (stagesList install inventory none)).filter
          (fun i => !(strContains (pyToLower i.issue) "pcie link degradation")) := rfl
    rw [he]
    constructor
    · intro _; rfl
    · intro _
      exact List.mem_filter.mpr ⟨hmem, by rw [hpcie]; rfl⟩
  · have he : filteredIssues install inventory (some sd) =
        ((collectIssues (stagesList install inventory (some sd))).filter
          (fun i => !(strContains (pyToLower i.issue) "counters unavailable"))).filter
          (fun i => !(strContains (pyToLower i.issue) "pcie link degradation")) := rfl
    rw [he]
    constructor
    · intro hmem2
      exfalso
      have h1 := (List.mem_filter.mp hmem2).1
      have h2 := (List.mem_filter.mp h1).2
      rw [hcu] at h2
      cases h2
    · intro hco
      cases hco

/-- Witness for C4 at the spec's own example issue. -/
theorem c4_counters_unavailable_iff_no_stress_witness :
    ((⟨"ECC counters unavailable", "Inventory"⟩ : Issue) ∈
      filteredIssues none (some ⟨"WARN", ["ECC counters unavailable"]⟩) none ↔
      (none : Option StageData) = none) :=
  c4_counters_unavailable_iff_no_stress none
    (some ⟨"WARN", ["ECC counters unavailable"]⟩) none
    ⟨"ECC counters unavailable", "Inventory"⟩ (by decide) (by decide) (by decide)

/-- C5: after filtering, a present stage with raw verdict `WARN` and no
surviving issue tagged with its label reports `PASS`, and a present stage
with raw verdict `FAIL` reports `FAIL` no matter what was filtered. -/
theorem c5_warn_upgrade_fail_sticky
    (install inventory stress : Option StageData) (l : String) (sd : StageData)
    (hmem : (l, some sd) ∈ stagesList install inventory stress) :
    (sd.overall = "WARN" →
      (∀ iss ∈ filteredIssues install inventory stress, iss.source ≠ l) →
      (l, "PASS") ∈ generateVerdicts install inventory stress) ∧
    (sd.overall = "FAIL" → (l, "FAIL") ∈ generateVerdicts install inventory stress) := by
  constructor
  · intro hw hno
    have hnotin : l ∉ (filteredIssues install inventory stress).map Issue.source := by
      intro hin
      obtain ⟨iss, hiss, he⟩ := List.mem_map.mp hin
      exact hno iss hiss he
    have hsv : stageVerdict ((filteredIssues install inventory stress).map Issue.source)
        l (some sd) = "PASS" := by
      simp only [stageVerdict]
      rw [if_pos ⟨hw, hnotin⟩]
    simp only [generateVerdicts]
    refine List.mem_map.mpr ⟨(l, some sd), hmem, ?_⟩
    dsimp only
    rw [hsv]
  · intro hf
    have hsv : stageVerdict ((filteredIssues install inventory stress).map Issue.source)
        l (some sd) = "FAIL" := by
      simp only [stageVerdict]
      rw [if_neg, hf]
      rintro ⟨hw, _⟩
      rw [hf] at hw
      exact absurd hw (by decide)
    simp only [generateVerdicts]
    refine List.mem_map.mpr ⟨(l, some sd), hmem, ?_⟩
    dsimp only
    rw [hsv]

/-- Witness for C5: with stress data present the inventory `counters
unavailable` issue is filtered, so the `WARN` inventory stage reports `PASS`. -/
theorem c5_warn_upgrade_fail_sticky_witness :
    ("Inventory", "PASS") ∈ generateVerdicts none
      (some ⟨"WARN", ["ECC counters unavailable"]⟩) (some ⟨"FAIL", []⟩) :=
  (c5_warn_upgrade_fail_sticky none (some ⟨"WARN", ["ECC counters unavailable"]⟩)
    (some ⟨"FAIL", []⟩) "Inventory" ⟨"WARN", ["ECC counters unavailable"]⟩
    (by decide)).1 rfl (by decide)

/-! ### Exact model of the float size arithmetic -/

/-- Exact value of the Python float division `a / b` on integers. -/
def intDivQ (a b : Int) : ℚ := Rat.divInt a b

/-- Python `round(x, 1)` — round half to even at one decimal place —
idealized over exact rationals: computed on the integer numerator of `10·x`. -/
def pyRound1 (x : ℚ) : ℚ :=
  let n := 10 * x.num
  let d := (x.den : Int)
  let q := n.fdiv d
  let r := n.fmod d
  let k := if 2 * r < d then q else if d < 2 * r then q + 1 else if q % 2 = 0 then q else q + 1
  Rat.divInt k 10

/-- Kernel-reducible `String.startsWith`. -/
def pyStartsWith (s pre : String) : Bool := pre.toList.isPrefixOf s.toList

/-! ### DIMM extraction from the hardware tree (`parse_lshw_dimms`) -/

/-- The `<size>` child element of an lshw node: its integer text (`none`
when the element text is missing or non-numeric, in which case the Python
`int(...)` raises and the size stays `0`) and its `units` attribute
(`"bytes"` when absent). -/
structure SizeEl where
  val : Option Int
  units : String
deriving DecidableEq, Repr

/-- One node of the lshw XML tree as consumed by `parse_lshw_dimms`:
the `id`/`class` attributes, the `_xml_text` of the description, slot,
vendor, product and serial children (`""` when missing or empty), a
presence flag for the `<slot>` child element, the `<size>` child, the
`<configuration><setting>` id/value attribute pairs, the parsed integer
text of `<clock>`, the parsed `<width>` with its units attribute, and
whether the node contains a nested `<node>` child.  A node list handed to
the extractor stands for `root.iter("node")` in document order. -/
structure LshwNode where
  id : String
  cls : String
  description : String
  slotPresent : Bool
  slot : String
  vendor : String
  product : String
  serial : String
  size : Option SizeEl
  config : List (String × String)
  clock : Option Int
  width : Option (Int × String)
  hasChildNode : Bool
deriving DecidableEq, Repr

/-- One extracted DIMM record. -/
structure Dimm where
  slot : String
  description : String
  size_gb : ℚ
  vendor : String
  product : String
  serial : String
  clock_mhz : Int
  width_bits : Int
deriving DecidableEq, Repr

/-- Size in GiB from the `<size>` element: `bytes`/`KiB`/`MiB`/`GiB` with
base-1024 divisions; unknown units fall back to bytes; a parse failure
leaves the size at `0`. -/
def lshwSizeGb (sz : Option SizeEl) : ℚ :=
  match sz with
  | none => 0
  | some se =>
    match se.val with
    | none => 0
    | some raw =>
      if se.units = "bytes" then intDivQ raw (1024 ^ 3)
      else if se.units = "KiB" then intDivQ raw (1024 ^ 2)
      else if se.units = "MiB" then intDivQ raw 1024
      else if se.units = "GiB" then (raw : ℚ)
      else intDivQ raw (1024 ^ 3)

/-- One attempt of the regex `(\d{3,5})\s*MHz` at the current position:
greedily try five, then four, then three leading digits, then skip
whitespace and require the literal `MHz`. -/
def mhzTry (k : Nat) (cs : List Char) : Option Nat :=
  let ds := cs.take k
  if ds.length = k && ds.all Char.isDigit &&
      ("MHz".toList.isPrefixOf ((cs.drop k).dropWhile pyIsSpace)) then
    some (digitsVal ds)
  else none

/-- `(\d{3,5})\s*MHz` matching at one start position. -/
def mhzAt (cs : List Char) : Option Nat :=
  match mhzTry 5 cs with
  | some v => some v
  | none =>
    match mhzTry 4 cs with
    | some v => some v
    | none => mhzTry 3 cs

/-- Leftmost match of `re.search(r'(\d{3,5})\s*MHz', ...)`. -/
def mhzScan : List Char → Option Nat
  | [] => none
  | c :: rest =>
    match mhzAt (c :: rest) with
    | some v => some v
    | none => mhzScan rest

/-- Speed strategy 1: a MHz figure parsed out of the description text. -/
def findMHz (s : String) : Option Nat := mhzScan s.toList

/-- Speed strategy 2: `<configuration><setting>` entries with id in
`{speed, configured_speed, configured_clock_speed}`; the digits of the
value are joined and parsed, normalizing Hz to MHz above `100000`;
later matching settings overwrite earlier ones. -/
def clockFromSettings (config : List (String × String)) : Int :=
  config.foldl
    (fun acc s =>
      if pyToLower s.1 = "speed" ∨ pyToLower s.1 = "configured_speed" ∨
          pyToLower s.1 = "configured_clock_speed" then
        let ds := s.2.toList.filter Char.isDigit
        if ds.isEmpty then acc
        else
          let num : Int := (digitsVal ds : Int)
          if num > 100000 then num / 1000000
          else if num > 0 then num
          else acc
      else acc)
    0

/-- The three speed strategies of `parse_lshw_dimms` in order: description
regex (accepted only at `≥ 800`), configuration settings, bus `<clock>`. -/
def clockMhzOf (node : LshwNode) : Int :=
  let s1 : Int :=
    match findMHz node.description with
    | some v => if v ≥ 800 then (v : Int) else 0
    | none => 0
  if s1 ≠ 0 then s1
  else
    let s2 := clockFromSettings node.config
    if s2 ≠ 0 then s2
    else
      match node.clock with
      | some hz => hz.fdiv 1000000
      | none => 0

/-- `<width>` with a `bytes` units attribute is converted to bits. -/
def widthBits (w : Option (Int × String)) : Int :=
  match w with
  | none => 0
  | some wu => if wu.2 = "bytes" then wu.1 * 8 else wu.1

/-- Description-keyword exclusion of `parse_lshw_dimms`: cache, system
board and motherboard nodes are dropped. -/
def lshwExcludedDesc (node : LshwNode) : Bool :=
  strContains (pyToLower node.description) "cache" ||
  strContains (pyToLower node.description) "system board" ||
  strContains (pyToLower node.description) "motherboard"

/-- Node-shape inclusion test: a `bank:` id, or a memory-class node with
slot and size children, or a memory-class node with a numbered id and a
size child. -/
def lshwShapeOk (node : LshwNode) : Bool :=
  pyStartsWith node.id "bank:" ||
  (node.cls == "memory" && node.slotPresent && node.size.isSome) ||
  (node.cls == "memory" && strContains node.id ":" && node.size.isSome)

/-- The DIMM-slot whitelist applied to a non-empty slot label. -/
def slotWhitelist : List String :=
  ["DIMM", "CPU", "MEM", "PROC", "BANK", "SLOT", "CHANNEL", "P0_", "P1_", "NODE"]

/-- A slot label passes when empty or when its upper-case form contains a
whitelist keyword. -/
def slotOkForDimm (slot : String) : Bool :=
  slot == "" || slotWhitelist.any (fun kw => strContains (pyToUpper slot) kw)

/-- The body of the `parse_lshw_dimms` node loop: `none` mirrors
`continue`. -/
def lshwNodeToDimm (node : LshwNode) : Option Dimm :=
  if lshwExcludedDesc node then none
  else if node.hasChildNode then none
  else if !(lshwShapeOk node) then none
  else if !(slotOkForDimm node.slot) then none
  else
    let size_gb := lshwSizeGb node.size
    if size_gb > 0 then
      some
        { slot := node.slot
          description := node.description
          size_gb := pyRound1 size_gb
          vendor := node.vendor
          product := node.product
          serial := node.serial
          clock_mhz := clockMhzOf node
          width_bits := widthBits node.width }
    else none

/-- `parse_lshw_dimms` over the flattened node iteration. -/
def parse_lshw_dimms (nodes : List LshwNode) : List Dimm := nodes.filterMap lshwNodeToDimm

/-! ### DIMM extraction from the resource document
(`parse_machine_resources_dimms`) -/

/-- One memory-device entry of the machine-resources document; every key
may be absent. -/
structure ResDimm where
  slot : Option String
  locator : Option String
  type : Option String
  description : Option String
  size : Option Int
  vendor : Option String
  part_number : Option String
  serial : Option String
  configured_speed : Option Int
  speed : Option Int
  data_width : Option Int
deriving DecidableEq, Repr

/-- `_EXCLUDE_KEYWORDS` of `parse_machine_resources_dimms`. -/
def resExcludeKeywords : List String :=
  ["cache", "l1", "l2", "l3", "system board", "motherboard"]

/-- `str(entry.get("slot", entry.get("locator", ""))).lower()`. -/
def resSlotStr (e : ResDimm) : String := pyToLower (e.slot.getD (e.locator.getD ""))

/-- `str(entry.get("type", entry.get("description", ""))).lower()`. -/
def resDescStr (e : ResDimm) : String := pyToLower (e.type.getD (e.description.getD ""))

/-- `_is_real_dimm`: no exclusion keyword in the slot or type text, and a
present, strictly positive size. -/
def isRealDimm (e : ResDimm) : Bool :=
  if resExcludeKeywords.any
      (fun kw => strContains (resSlotStr e) kw || strContains (resDescStr e) kw) then false
  else decide (0 < e.size.getD 0)

/-- The record built in the `memory.nodes[].dimms[]` branch; sizes are in
MiB and divided by 1024. -/
def resMkNodes (e : ResDimm) : Dimm :=
  { slot := e.slot.getD ""
    description := e.type.getD ""
    size_gb := if e.size.getD 0 ≠ 0 then pyRound1 (intDivQ (e.size.getD 0) 1024) else 0
    vendor := e.vendor.getD ""
    product := e.part_number.getD ""
    serial := e.serial.getD ""
    clock_mhz := e.configured_speed.getD (e.speed.getD 0)
    width_bits := e.data_width.getD 0 }

/-- The record built in the flat `memory.dimms[]` branch: identical except
that the slot falls back to the locator. -/
def resMkFlat (e : ResDimm) : Dimm :=
  { resMkNodes e with slot := e.slot.getD (e.locator.getD "") }

/-- Loop body of the grouped branch. -/
def resEntryToDimmNodes (e : ResDimm) : Option Dimm :=
  if isRealDimm e then some (resMkNodes e) else none

/-- Loop body of the flat branch. -/
def resEntryToDimmFlat (e : ResDimm) : Option Dimm :=
  if isRealDimm e then some (resMkFlat e) else none

/-- The `memory` section of the machine-resources document:
`nodes` holds the per-NUMA-node `dimms` lists, `dimms` the alternate flat
layout. -/
structure ResourcesMem where
  nodes : List (List ResDimm)
  dimms : List ResDimm
deriving DecidableEq, Repr

/-- `parse_machine_resources_dimms`: grouped layout first (looping over
`memory.nodes[]` produces nothing when the list is empty, so the redundant
`if nodes:` guard is dropped); the flat layout is consulted only when the
grouped pass produced zero records; a final filter keeps only records with
positive rounded size. -/
def parse_machine_resources_dimms (r : ResourcesMem) : List Dimm :=
  let fromNodes := r.nodes.bind (fun nd => nd.filterMap resEntryToDimmNodes)
  let dimms := if fromNodes.isEmpty then r.dimms.filterMap resEntryToDimmFlat else fromNodes
  dimms.filter (fun d => decide (0 < d.size_gb))

/-- C10: a memory node with a non-empty slot label containing none of the
whitelist keywords is excluded from the extracted DIMM list, whatever its
other fields. -/
theorem c10_lshw_slot_whitelist (node : LshwNode)
    (hs : node.slot ≠ "")
    (hw : ∀ kw ∈ slotWhitelist, strContains (pyToUpper node.slot) kw = false) :
    lshwNodeToDimm node = none := by
  have hok : slotOkForDimm node.slot = false := by
    simp only [slotOkForDimm, Bool.or_eq_false_iff, beq_eq_false_iff_ne, ne_eq,
      List.any_eq_false]
    exact ⟨hs, fun kw hkw => by rw [hw kw hkw]; simp⟩
  simp [lshwNodeToDimm, hok]

/-- Witness for C10: a positive-size, keyword-free bank node whose slot
label `XYZ 1` matches no whitelist keyword. -/
theorem c10_lshw_slot_whitelist_witness :
    lshwNodeToDimm
      ⟨"bank:0", "memory", "DIMM DDR4", true, "XYZ 1", "", "", "",
       some ⟨some 17179869184, "bytes"⟩, [], none, none, false⟩ = none :=
  c10_lshw_slot_whitelist _ (by decide) (by decide)

/-- C6 fails as literally stated for the hardware-tree source: a candidate
whose slot text contains the exclusion keyword `cache` (while its
description is clean and its size positive) is retained. -/
theorem c6_lshw_slot_keyword_cex :
    parse_lshw_dimms
        [⟨"bank:0", "memory", "DIMM DDR4 Synchronous", true, "DIMM CACHE A1", "Samsung",
          "M386", "S1", some ⟨some 17179869184, "bytes"⟩, [], none, none, false⟩] =
      [⟨"DIMM CACHE A1", "DIMM DDR4 Synchronous", 16, "Samsung", "M386", "S1", 0, 0⟩] ∧
    strContains (pyToLower "DIMM CACHE A1") "cache" = true := by
  constructor
  · decide
  · decide

/-- C6 (amended): every record of the merged DIMM inventory stems from a
candidate that passed the exclusion tests — for the hardware tree, a node
whose description contains none of cache/system board/motherboard and whose
size is strictly positive; for the resource document, an entry accepted by
`_is_real_dimm`, i.e. with positive size and no exclusion keyword in its
slot/locator or type/description text.  (The hardware-tree slot text is
instead subjected to the whitelist of C10, so a slot-text keyword alone does
not exclude a tree candidate.) -/
theorem c6_dimm_exclusion (roots : List LshwNode) (r : ResourcesMem) :
    (∀ d ∈ parse_lshw_dimms roots, ∃ nd, nd ∈ roots ∧ lshwNodeToDimm nd = some d ∧
      lshwExcludedDesc nd = false ∧ 0 < lshwSizeGb nd.size) ∧
    (∀ d ∈ parse_machine_resources_dimms r, ∃ e,
      (e ∈ r.nodes.bind id ∨ e ∈ r.dimms) ∧ isRealDimm e = true ∧ 0 < e.size.getD 0 ∧
      (∀ kw ∈ resExcludeKeywords, strContains (resSlotStr e) kw = false ∧
        strContains (resDescStr e) kw = false) ∧
      (d = resMkNodes e ∨ d = resMkFlat e)) := by
  constructor
  · intro d hd
    obtain ⟨nd, hnd, hsome⟩ := List.mem_filterMap.mp hd
    refine ⟨nd, hnd, hsome, ?_⟩
    simp only [lshwNodeToDimm] at hsome
    split at hsome
    · cases hsome
    · split at hsome
      · cases hsome
      · split at hsome
        · cases hsome
        · split at hsome
          · cases hsome
          · split at hsome
            · rename_i h1 _ _ _ h5
              exact ⟨Bool.not_eq_true _ ▸ (by simpa using h1), h5⟩
            · cases hsome
  · intro d hd
    have hreal : ∀ e : ResDimm, isRealDimm e = true →
        0 < e.size.getD 0 ∧
        (∀ kw ∈ resExcludeKeywords, strContains (resSlotStr e) kw = false ∧
          strContains (resDescStr e) kw = false) := by
      intro e he
      simp only [isRealDimm] at he
      split at he
      · cases he
      · rename_i hany
        refine ⟨of_decide_eq_true he, ?_⟩
        rw [Bool.not_eq_true] at hany
        have hall := List.any_eq_false.mp hany
        intro kw hkw
        have hb : (strContains (resSlotStr e) kw || strContains (resDescStr e) kw) = false := by
          simpa using hall kw hkw
        exact ⟨(Bool.or_eq_false_iff.mp hb).1, (Bool.or_eq_false_iff.mp hb).2⟩
    simp only [parse_machine_resources_dimms] at hd
    have hdm := (List.mem_filter.mp hd).1
    split at hdm
    · obtain ⟨e, he, hsome⟩ := List.mem_filterMap.mp hdm
      simp only [resEntryToDimmFlat] at hsome
      split at hsome
      · rename_i hisr
        obtain ⟨h1, h2⟩ := hreal e hisr
        exact ⟨e, Or.inr he, hisr, h1, h2, Or.inr (Option.some_inj.mp hsome).symm⟩
      · cases hsome
    · obtain ⟨nd, hnd, hdm2⟩ := List.mem_bind.mp hdm
      obtain ⟨e, he, hsome⟩ := List.mem_filterMap.mp hdm2
      simp only [resEntryToDimmNodes] at hsome
      split at hsome
      · rename_i hisr
        obtain ⟨h1, h2⟩ := hreal e hisr
        exact ⟨e, Or.inl (List.mem_bind.mpr ⟨nd, hnd, he⟩), hisr, h1, h2,
          Or.inl (Option.some_inj.mp hsome).symm⟩
      · cases hsome

/-- Witness for C6 at a one-node tree and a one-entry resource document. -/
theorem c6_dimm_exclusion_witness :
    (∃ nd, nd ∈ [(⟨"bank:0", "memory", "DIMM DDR4", true, "DIMM A1", "", "", "",
        some ⟨some 17179869184, "bytes"⟩, [], none, none, false⟩ : LshwNode)] ∧
      lshwNodeToDimm nd =
        some ⟨"DIMM A1", "DIMM DDR4", 16, "", "", "", 0, 0⟩ ∧
      lshwExcludedDesc nd = false ∧ 0 < lshwSizeGb nd.size) :=
  (c6_dimm_exclusion
      [⟨"bank:0", "memory", "DIMM DDR4", true, "DIMM A1", "", "", "",
        some ⟨some 17179869184, "bytes"⟩, [], none, none, false⟩]
      ⟨[], []⟩).1
    ⟨"DIMM A1", "DIMM DDR4", 16, "", "", "", 0, 0⟩ (by decide)

/-! ### Storage extraction (`extract_storage_details`) -/

/-- One MAAS block device (`physicalblockdevice_set` entry or RAID member). -/
structure BlockDev where
  name : Option String
  model : Option String
  serial : Option String
  size : Option Int
  firmware_version : Option String
  numa_node : Option Int
deriving DecidableEq, Repr

/-- One MAAS RAID set with its member and spare device lists. -/
structure RaidSet where
  name : Option String
  level : Option String
  devices : List BlockDev
  spare_devices : List BlockDev
deriving DecidableEq, Repr

/-- One machine-resources disk entry; every key may be absent. -/
structure ResDisk where
  serial : Option String
  serial_number : Option String
  name : Option String
  device_name : Option String
  model : Option String
  model_name : Option String
  size : Option Int
  firmware_version : Option String
  firmware : Option String
  numa_node : Option Int
  type : Option String
deriving DecidableEq, Repr

/-- The storage-relevant part of the MAAS machine record
(`machine.get("raid_set", machine.get("raids", []))` collapsed to one
list). -/
structure Machine where
  physicalblockdevice_set : List BlockDev
  raid_set : List RaidSet
deriving DecidableEq, Repr

/-- The `storage.disks` list of the machine-resources document. -/
structure ResourcesStorage where
  disks : List ResDisk
deriving DecidableEq, Repr

/-- One merged storage record. -/
structure StorageRec where
  name : String
  model : String
  serial : String
  size_gb : ℚ
  firmware : String
  numa_node : Int
  type : String
  raid_member : Bool
  raid_name : Option String
  raid_level : Option String
deriving DecidableEq, Repr

/-- `round(size_bytes / (1000 ** 3), 1) if size_bytes else 0`: storage
sizes are decimal gigabytes. -/
def storageSizeGb (size : Option Int) : ℚ :=
  if size.getD 0 ≠ 0 then pyRound1 (intDivQ (size.getD 0) (1000 ^ 3)) else 0

/-- Record built from a direct block device (source 1); the raid keys are
absent from the Python dict, modelled as `none`. -/
def mkBlockRec (bd : BlockDev) : StorageRec :=
  { name := bd.name.getD "?"
    model := bd.model.getD ""
    serial := bd.serial.getD ""
    size_gb := storageSizeGb bd.size
    firmware := bd.firmware_version.getD ""
    numa_node := bd.numa_node.getD (-1)
    type := "block"
    raid_member := false
    raid_name := none
    raid_level := none }

/-- Record built from a RAID member or spare (source 2). -/
def mkRaidRec (raid : RaidSet) (member : BlockDev) : StorageRec :=
  { name := member.name.getD "?"
    model := member.model.getD ""
    serial := member.serial.getD ""
    size_gb := storageSizeGb member.size
    firmware := member.firmware_version.getD ""
    numa_node := member.numa_node.getD (-1)
    type := "raid_member"
    raid_member := true
    raid_name := some (raid.name.getD "")
    raid_level := some (raid.level.getD "") }

/-- `disk.get("serial", disk.get("serial_number", ""))`. -/
def diskSerial (d : ResDisk) : String := d.serial.getD (d.serial_number.getD "")

/-- Record built from a machine-resources disk (source 3). -/
def mkDiskRec (d : ResDisk) : StorageRec :=
  { name := d.name.getD (d.device_name.getD "")
    model := d.model.getD (d.model_name.getD "")
    serial := diskSerial d
    size_gb := storageSizeGb d.size
    firmware := d.firmware_version.getD (d.firmware.getD "")
    numa_node := d.numa_node.getD (-1)
    type := d.type.getD "disk"
    raid_member := false
    raid_name := none
    raid_level := none }

/-- Source 1 of `extract_storage_details`: every block device is appended
(no seen-serial check), and non-empty serials are recorded as seen. -/
def blockPhase (bds : List BlockDev) : List StorageRec × Finset String :=
  bds.foldl
    (fun acc bd =>
      let serial := bd.serial.getD ""
      (acc.1 ++ [mkBlockRec bd], if serial ≠ "" then insert serial acc.2 else acc.2))
    ([], ∅)

/-- The shared loop body of sources 2 and 3: skip an element whose
non-empty serial was already seen, otherwise append its record and mark
the serial seen. -/
def dedupFold {α : Type} (so : α → String) (mk : α → StorageRec)
    (init : List StorageRec × Finset String) (xs : List α) :
    List StorageRec × Finset String :=
  xs.foldl
    (fun acc x =>
      let s := so x
      if s ≠ "" ∧ s ∈ acc.2 then acc
      else (acc.1 ++ [mk x], if s ≠ "" then insert s acc.2 else acc.2))
    init

/-- `extract_storage_details`: block devices, then RAID members and
spares, then machine-resources disks, deduplicated by first-seen serial
(sources 2 and 3 only). -/
def extract_storage_details (m : Machine) (mr : Option ResourcesStorage) :
    List StorageRec :=
  let st1 := blockPhase m.physicalblockdevice_set
  let st2 := m.raid_set.foldl
    (fun st raid =>
      dedupFold (fun mb => mb.serial.getD "") (mkRaidRec raid) st
        (raid.devices ++ raid.spare_devices))
    st1
  let st3 :=
    match mr with
    | none => st2
    | some r => dedupFold diskSerial mkDiskRec st2 r.disks
  st3.1

/-- The RAID member loop, flattened to (raid, member) pairs in iteration
order. -/
def raidPairs (m : Machine) : List (RaidSet × BlockDev) :=
  m.raid_set.bind
    (fun raid => (raid.devices ++ raid.spare_devices).map (fun mb => (raid, mb)))

theorem dedupFold_cons {α : Type} (so : α → String) (mk : α → StorageRec)
    (init : List StorageRec × Finset String) (x : α) (t : List α) :
    dedupFold so mk init (x :: t) =
      dedupFold so mk
        (if so x ≠ "" ∧ so x ∈ init.2 then init
         else (init.1 ++ [mk x], if so x ≠ "" then insert (so x) init.2 else init.2))
        t := rfl

theorem dedupFold_seen_mono {α : Type} (so : α → String) (mk : α → StorageRec)
    (t : List α) (s : String) :
    ∀ init : List StorageRec × Finset String, s ∈ init.2 →
      s ∈ (dedupFold so mk init t).2 := by
  induction t with
  | nil => intro init h; exact h
  | cons x t ih =>
    intro init h
    rw [dedupFold_cons]
    apply ih
    split
    · exact h
    · dsimp only
      split
      · exact Finset.mem_insert_of_mem h
      · exact h

theorem dedupFold_filter_seen {α : Type} (so : α → String) (mk : α → StorageRec)
    (t : List α) (s : String) (hs : s ≠ "") (hmk : ∀ x, (mk x).serial = so x) :
    ∀ init : List StorageRec × Finset String, s ∈ init.2 →
      (dedupFold so mk init t).1.filter (fun rcd => rcd.serial == s) =
        init.1.filter (fun rcd => rcd.serial == s) := by
  induction t with
  | nil => intro init _; rfl
  | cons x t ih =>
    intro init hseen
    rw [dedupFold_cons]
    by_cases hxs : so x = s
    · rw [if_pos ⟨by rw [hxs]; exact hs, by rw [hxs]; exact hseen⟩]
      exact ih init hseen
    · split
      · exact ih init hseen
      · have hseen' : s ∈
            (init.1 ++ [mk x], if so x ≠ "" then insert (so x) init.2 else init.2).2 := by
          dsimp only
          split
          · exact Finset.mem_insert_of_mem hseen
          · exact hseen
        rw [ih _ hseen']
        dsimp only
        rw [List.filter_append]
        have hone : [mk x].filter (fun rcd => rcd.serial == s) = [] := by
          simp [hmk x, hxs]
        rw [hone, List.append_nil]

theorem dedupFold_filter_none {α : Type} (so : α → String) (mk : α → StorageRec)
    (t : List α) (s : String) (hs : s ≠ "") (hmk : ∀ x, (mk x).serial = so x)
    (hnone : ∀ x ∈ t, so x ≠ s) :
    ∀ init : List StorageRec × Finset String, s ∉ init.2 →
      (dedupFold so mk init t).1.filter (fun rcd => rcd.serial == s) =
        init.1.filter (fun rcd => rcd.serial == s) ∧
      s ∉ (dedupFold so mk init t).2 := by
  induction t with
  | nil => intro init hnot; exact ⟨rfl, hnot⟩
  | cons x t ih =>
    intro init hnot
    have hxne : so x ≠ s := hnone x (List.mem_cons_self x t)
    have ht : ∀ y ∈ t, so y ≠ s := fun y hy => hnone y (List.mem_cons_of_mem x hy)
    rw [dedupFold_cons]
    have ih' := fun init h => ih ht init h
    split
    · exact ih' init hnot
    · have hnot' : s ∉
          (init.1 ++ [mk x], if so x ≠ "" then insert (so x) init.2 else init.2).2 := by
        dsimp only
        split
        · intro hmem
          rcases Finset.mem_insert.mp hmem with he | hm
          · exact hxne he.symm
          · exact hnot hm
        · exact hnot
      obtain ⟨h1, h2⟩ := ih' _ hnot'
      refine ⟨?_, h2⟩
      rw [h1]
      dsimp only
      rw [List.filter_append]
      have hone : [mk x].filter (fun rcd => rcd.serial == s) = [] := by
        simp [hmk x, hxne]
      rw [hone, List.append_nil]

theorem dedupFold_filter_first {α : Type} (so : α → String) (mk : α → StorageRec)
    (t : List α) (s : String) (x0 : α) (hs : s ≠ "") (hmk : ∀ x, (mk x).serial = so x) :
    ∀ init : List StorageRec × Finset String, s ∉ init.2 →
      t.find? (fun x => so x == s) = some x0 →
      (dedupFold so mk init t).1.filter (fun rcd => rcd.serial == s) =
        init.1.filter (fun rcd => rcd.serial == s) ++ [mk x0] ∧
      s ∈ (dedupFold so mk init t).2 := by
  induction t with
  | nil => intro init _ hf; cases hf
  | cons x t ih =>
    intro init hnot hfind
    rw [dedupFold_cons]
    by_cases hx : (so x == s) = true
    · rw [@List.find?_cons_of_pos _ (fun y => so y == s) x t hx] at hfind
      have hx0 : x0 = x := (Option.some_inj.mp hfind).symm
      subst hx0
      have hxeq : so x0 = s := by simpa using hx
      rw [if_neg ?hneg]
      case hneg =>
        rintro ⟨_, hmem⟩
        rw [hxeq] at hmem
        exact hnot hmem
      have hseen' : s ∈
          (init.1 ++ [mk x0], if so x0 ≠ "" then insert (so x0) init.2 else init.2).2 := by
        dsimp only
        rw [hxeq, if_pos hs]
        exact Finset.mem_insert_self s _
      constructor
      · rw [dedupFold_filter_seen so mk t s hs hmk _ hseen']
        dsimp only
        rw [List.filter_append]
        have hone : [mk x0].filter (fun rcd => rcd.serial == s) = [mk x0] := by
          simp [hmk x0, hxeq]
        rw [hone]
      · exact dedupFold_seen_mono so mk t s _ hseen'
    · rw [@List.find?_cons_of_neg _ (fun y => so y == s) x t hx] at hfind
      have hxne : so x ≠ s := by simpa using hx
      split
      · exact ih init hnot hfind
      · have hnot' : s ∉
            (init.1 ++ [mk x], if so x ≠ "" then insert (so x) init.2 else init.2).2 := by
          dsimp only
          split
          · intro hmem
            rcases Finset.mem_insert.mp hmem with he | hm
            · exact hxne he.symm
            · exact hnot hm
          · exact hnot
        obtain ⟨h1, h2⟩ := ih _ hnot' hfind
        refine ⟨?_, h2⟩
        rw [h1]
        dsimp only
        rw [List.filter_append]
        have hone : [mk x].filter (fun rcd => rcd.serial == s) = [] := by
          simp [hmk x, hxne]
        rw [hone, List.append_nil]

theorem blockPhase_fst_aux (bds : List BlockDev) :
    ∀ init : List StorageRec × Finset String,
      (bds.foldl
        (fun acc bd =>
          let serial := bd.serial.getD ""
          (acc.1 ++ [mkBlockRec bd], if serial ≠ "" then insert serial acc.2 else acc.2))
        init).1 = init.1 ++ bds.map mkBlockRec := by
  induction bds with
  | nil => intro init; simp
  | cons bd t ih =>
    intro init
    rw [List.foldl_cons, ih]
    dsimp only
    rw [List.map_cons, List.append_assoc]
    rfl

theorem blockPhase_fst (bds : List BlockDev) :
    (blockPhase bds).1 = bds.map mkBlockRec := by
  have h := blockPhase_fst_aux bds ([], ∅)
  simpa [blockPhase] using h

theorem blockPhase_seen_aux (s : String) (hs : s ≠ "") (bds : List BlockDev) :
    ∀ init : List StorageRec × Finset String,
      (s ∈ (bds.foldl
        (fun acc bd =>
          let serial := bd.serial.getD ""
          (acc.1 ++ [mkBlockRec bd], if serial ≠ "" then insert serial acc.2 else acc.2))
        init).2 ↔ s ∈ init.2 ∨ ∃ bd ∈ bds, bd.serial.getD "" = s) := by
  induction bds with
  | nil => intro init; simp
  | cons bd t ih =>
    intro init
    rw [List.foldl_cons, ih]
    dsimp only
    constructor
    · rintro (hmem | hex)
      · by_cases hbd : bd.serial.getD "" = ""
        · rw [if_neg (by simpa using hbd)] at hmem
          exact Or.inl hmem
        · rw [if_pos hbd] at hmem
          rcases Finset.mem_insert.mp hmem with he | hm
          · exact Or.inr ⟨bd, List.mem_cons_self bd t, he.symm⟩
          · exact Or.inl hm
      · obtain ⟨b, hb, he⟩ := hex
        exact Or.inr ⟨b, List.mem_cons_of_mem _ hb, he⟩
    · rintro (hmem | ⟨b, hb, he⟩)
      · refine Or.inl ?_
        split
        · exact Finset.mem_insert_of_mem hmem
        · exact hmem
      · rcases List.mem_cons.mp hb with rfl | hbt
        · refine Or.inl ?_
          have hne : b.serial.getD "" ≠ "" := by rw [he]; exact hs
          rw [if_pos hne, he]
          exact Finset.mem_insert_self s _
        · exact Or.inr ⟨b, hbt, he⟩

theorem blockPhase_seen (s : String) (hs : s ≠ "") (bds : List BlockDev) :
    s ∈ (blockPhase bds).2 ↔ ∃ bd ∈ bds, bd.serial.getD "" = s := by
  have h := blockPhase_seen_aux s hs bds ([], ∅)
  simpa [blockPhase] using h

theorem dedupFold_append {α : Type} (so : α → String) (mk : α → StorageRec)
    (a b : List α) (init : List StorageRec × Finset String) :
    dedupFold so mk init (a ++ b) = dedupFold so mk (dedupFold so mk init a) b := by
  simp [dedupFold, List.foldl_append]

theorem dedupFold_map {α β : Type} (so : β → String) (mk : β → StorageRec) (g : α → β)
    (l : List α) (init : List StorageRec × Finset String) :
    dedupFold so mk init (l.map g) =
      dedupFold (fun x => so (g x)) (fun x => mk (g x)) init l := by
  simp [dedupFold, List.foldl_map]

theorem raid_phase_eq (rsets : List RaidSet) :
    ∀ st : List StorageRec × Finset String,
      rsets.foldl
        (fun st raid =>
          dedupFold (fun mb => mb.serial.getD "") (mkRaidRec raid) st
            (raid.devices ++ raid.spare_devices)) st =
      dedupFold (fun pr : RaidSet × BlockDev => pr.2.serial.getD "")
        (fun pr => mkRaidRec pr.1 pr.2) st
        (rsets.bind
          (fun raid => (raid.devices ++ raid.spare_devices).map (fun mb => (raid, mb)))) := by
  induction rsets with
  | nil => intro st; rfl
  | cons raid t ih =>
    intro st
    rw [List.foldl_cons, ih]
    have hinner : dedupFold (fun mb => mb.serial.getD "") (mkRaidRec raid) st
        (raid.devices ++ raid.spare_devices) =
      dedupFold (fun pr : RaidSet × BlockDev => pr.2.serial.getD "")
        (fun pr => mkRaidRec pr.1 pr.2) st
        ((raid.devices ++ raid.spare_devices).map (fun mb => (raid, mb))) := by
      rw [dedupFold_map]
    rw [hinner, ← dedupFold_append]
    rfl

/-- C7 fails as literally stated: a serial appearing twice in the
block-device list and once in the resource disk list yields two merged
records with that serial, because source 1 performs no self-deduplication. -/
theorem c7_storage_duplicate_block_cex :
    ((extract_storage_details
        ⟨[⟨some "sda", none, some "S", some 1000000000, none, none⟩,
          ⟨some "sdb", none, some "S", some 1000000000, none, none⟩], []⟩
        (some ⟨[⟨some "S", none, some "d0", none, none, none, some 1000000000,
          none, none, none, none⟩]⟩)).filter
      (fun rcd => rcd.serial == "S")).length = 2 := by decide

/-- C7 (amended): for a non-empty serial shared across sources, the merged
list contains exactly the one record from the first source in priority
order (block devices, then RAID members and spares, then resource disks),
provided the block-device list itself carries that serial at most once —
duplicates inside the block-device list are all retained. -/
theorem c7_storage_serial_first_source (m : Machine) (mr : Option ResourcesStorage)
    (s : String) (hs : s ≠ "") :
    (∀ bd, m.physicalblockdevice_set.find? (fun b => b.serial.getD "" == s) = some bd →
      (m.physicalblockdevice_set.filter (fun b => b.serial.getD "" == s)).length = 1 →
      (extract_storage_details m mr).filter (fun rcd => rcd.serial == s) =
        [mkBlockRec bd]) ∧
    (∀ pr : RaidSet × BlockDev,
      m.physicalblockdevice_set.find? (fun b => b.serial.getD "" == s) = none →
      (raidPairs m).find? (fun q => q.2.serial.getD "" == s) = some pr →
      (extract_storage_details m mr).filter (fun rcd => rcd.serial == s) =
        [mkRaidRec pr.1 pr.2]) ∧
    (∀ r d, mr = some r →
      m.physicalblockdevice_set.find? (fun b => b.serial.getD "" == s) = none →
      (raidPairs m).find? (fun q => q.2.serial.getD "" == s) = none →
      r.disks.find? (fun q => diskSerial q == s) = some d →
      (extract_storage_details m mr).filter (fun rcd => rcd.serial == s) =
        [mkDiskRec d]) := by
  have hpairmk : ∀ pr : RaidSet × BlockDev,
      (mkRaidRec pr.1 pr.2).serial = pr.2.serial.getD "" := fun _ => rfl
  have hdiskmk : ∀ d : ResDisk, (mkDiskRec d).serial = diskSerial d := fun _ => rfl
  have hext : ∀ mr' : Option ResourcesStorage, extract_storage_details m mr' =
      (match mr' with
       | none => dedupFold (fun pr : RaidSet × BlockDev => pr.2.serial.getD "")
           (fun pr => mkRaidRec pr.1 pr.2)
           (blockPhase m.physicalblockdevice_set) (raidPairs m)
       | some r => dedupFold diskSerial mkDiskRec
           (dedupFold (fun pr : RaidSet × BlockDev => pr.2.serial.getD "")
             (fun pr => mkRaidRec pr.1 pr.2)
             (blockPhase m.physicalblockdevice_set) (raidPairs m)) r.disks).1 := by
    intro mr'
    cases mr' with
    | none =>
      simp only [extract_storage_details]
      rw [raid_phase_eq]
      rfl
    | some r =>
      simp only [extract_storage_details]
      rw [raid_phase_eq]
      rfl
  refine ⟨?_, ?_, ?_⟩
  · intro bd hfind hlen1
    have hpbd := List.find?_some hfind
    have hmem' : bd ∈ m.physicalblockdevice_set.filter (fun b => b.serial.getD "" == s) :=
      List.mem_filter.mpr ⟨List.mem_of_find?_eq_some hfind, hpbd⟩
    obtain ⟨a, ha⟩ := List.length_eq_one.mp hlen1
    have hfb : m.physicalblockdevice_set.filter (fun b => b.serial.getD "" == s) = [bd] := by
      rw [ha]
      rw [ha] at hmem'
      have : bd = a := by simpa using hmem'
      rw [this]
    have hst1f : (blockPhase m.physicalblockdevice_set).1.filter
        (fun rcd => rcd.serial == s) = [mkBlockRec bd] := by
      rw [blockPhase_fst, List.map_filter]
      have hcomp : ((fun rcd : StorageRec => rcd.serial == s) ∘ mkBlockRec) =
          (fun b : BlockDev => b.serial.getD "" == s) := rfl
      rw [hcomp, hfb]
      rfl
    have hseen1 : s ∈ (blockPhase m.physicalblockdevice_set).2 := by
      rw [blockPhase_seen s hs]
      exact ⟨bd, List.mem_of_find?_eq_some hfind, by simpa using hpbd⟩
    rcases mr with _ | r
    · rw [hext none]
      rw [dedupFold_filter_seen _ _ (raidPairs m) s hs hpairmk _ hseen1, hst1f]
    · rw [hext (some r)]
      have hseen2 := dedupFold_seen_mono
        (fun pr : RaidSet × BlockDev => pr.2.serial.getD "")
        (fun pr => mkRaidRec pr.1 pr.2) (raidPairs m) s _ hseen1
      rw [dedupFold_filter_seen diskSerial mkDiskRec r.disks s hs hdiskmk _ hseen2,
        dedupFold_filter_seen _ _ (raidPairs m) s hs hpairmk _ hseen1, hst1f]
  · intro pr hfnone hfind
    have hforall : ∀ b ∈ m.physicalblockdevice_set, b.serial.getD "" ≠ s := by
      intro b hb
      have := List.find?_eq_none.mp hfnone b hb
      simpa using this
    have hst1f : (blockPhase m.physicalblockdevice_set).1.filter
        (fun rcd => rcd.serial == s) = [] := by
      rw [blockPhase_fst, List.map_filter]
      have hcomp : ((fun rcd : StorageRec => rcd.serial == s) ∘ mkBlockRec) =
          (fun b : BlockDev => b.serial.getD "" == s) := rfl
      rw [hcomp]
      have hnil : m.physicalblockdevice_set.filter (fun b => b.serial.getD "" == s) = [] := by
        rw [List.filter_eq_nil_iff]
        intro b hb
        simpa using hforall b hb
      rw [hnil]
      rfl
    have hnot1 : s ∉ (blockPhase m.physicalblockdevice_set).2 := by
      rw [blockPhase_seen s hs]
      rintro ⟨b, hb, he⟩
      exact hforall b hb he
    obtain ⟨h2f, h2seen⟩ := dedupFold_filter_first
      (fun pr : RaidSet × BlockDev => pr.2.serial.getD "")
      (fun pr => mkRaidRec pr.1 pr.2) (raidPairs m) s pr hs hpairmk _ hnot1 hfind
    rcases mr with _ | r
    · rw [hext none, h2f, hst1f]
      rfl
    · rw [hext (some r)]
      rw [dedupFold_filter_seen diskSerial mkDiskRec r.disks s hs hdiskmk _ h2seen,
        h2f, hst1f]
      rfl
  · intro r d hmr hfnone1 hfnone2 hfind
    subst hmr
    have hforall : ∀ b ∈ m.physicalblockdevice_set, b.serial.getD "" ≠ s := by
      intro b hb
      have := List.find?_eq_none.mp hfnone1 b hb
      simpa using this
    have hst1f : (blockPhase m.physicalblockdevice_set).1.filter
        (fun rcd => rcd.serial == s) = [] := by
      rw [blockPhase_fst, List.map_filter]
      have hcomp : ((fun rcd : StorageRec => rcd.serial == s) ∘ mkBlockRec) =
          (fun b : BlockDev => b.serial.getD "" == s) := rfl
      rw [hcomp]
      have hnil : m.physicalblockdevice_set.filter (fun b => b.serial.getD "" == s) = [] := by
        rw [List.filter_eq_nil_iff]
        intro b hb
        simpa using hforall b hb
      rw [hnil]
      rfl
    have hnot1 : s ∉ (blockPhase m.physicalblockdevice_set).2 := by
      rw [blockPhase_seen s hs]
      rintro ⟨b, hb, he⟩
      exact hforall b hb he
    have hforall2 : ∀ q ∈ raidPairs m, q.2.serial.getD "" ≠ s := by
      intro q hq
      have := List.find?_eq_none.mp hfnone2 q hq
      simpa using this
    obtain ⟨h2f, h2seen⟩ := dedupFold_filter_none
      (fun pr : RaidSet × BlockDev => pr.2.serial.getD "")
      (fun pr => mkRaidRec pr.1 pr.2) (raidPairs m) s hs hpairmk hforall2 _ hnot1
    obtain ⟨h3f, _⟩ := dedupFold_filter_first diskSerial mkDiskRec r.disks s d hs hdiskmk
      _ h2seen hfind
    rw [hext (some r), h3f, h2f, hst1f]
    rfl

/-- Witness for C7: serial `S` in both the block-device list and the disk
list resolves to the single block-device record. -/
theorem c7_storage_serial_first_source_witness :
    (extract_storage_details
        ⟨[⟨some "sda", none, some "S", some 1000000000, none, none⟩], []⟩
        (some ⟨[⟨some "S", none, some "d0", none, none, none, some 1000000000,
          none, none, none, none⟩]⟩)).filter (fun rcd => rcd.serial == "S") =
      [mkBlockRec ⟨some "sda", none, some "S", some 1000000000, none, none⟩] :=
  (c7_storage_serial_first_source
      ⟨[⟨some "sda", none, some "S", some 1000000000, none, none⟩], []⟩
      (some ⟨[⟨some "S", none, some "d0", none, none, none, some 1000000000,
        none, none, none, none⟩]⟩) "S" (by decide)).1
    ⟨some "sda", none, some "S", some 1000000000, none, none⟩ (by decide) (by decide)

/-- C9: 17179869184 bytes normalize to 16.0 GiB through the hardware-tree
extractor and 2000000000000 bytes to 2000.0 GB through the storage
extractor; the memory conversion table divides by powers of 1024 for every
unit, while the storage conversion always divides by 1000³. -/
theorem c9_unit_conversions :
    ((parse_lshw_dimms
        [⟨"bank:0", "memory", "DIMM", true, "DIMM A1", "", "", "",
          some ⟨some 17179869184, "bytes"⟩, [], none, none, false⟩]).map Dimm.size_gb
      = [16]) ∧
    ((extract_storage_details
        ⟨[⟨some "sda", some "X", some "S", some 2000000000000, none, none⟩], []⟩
        none).map StorageRec.size_gb = [2000]) ∧
    (∀ raw : Int,
      lshwSizeGb (some ⟨some raw, "bytes"⟩) = (raw : ℚ) / 1024 ^ 3 ∧
      lshwSizeGb (some ⟨some raw, "KiB"⟩) = (raw : ℚ) / 1024 ^ 2 ∧
      lshwSizeGb (some ⟨some raw, "MiB"⟩) = (raw : ℚ) / 1024 ∧
      lshwSizeGb (some ⟨some raw, "GiB"⟩) = (raw : ℚ)) ∧
    (∀ e : ResDimm, (resMkNodes e).size_gb =
      (if e.size.getD 0 ≠ 0 then pyRound1 ((e.size.getD 0 : ℚ) / 1024) else 0)) ∧
    (∀ size : Option Int, storageSizeGb size =
      (if size.getD 0 ≠ 0 then pyRound1 ((size.getD 0 : ℚ) / 1000 ^ 3) else 0)) := by
  refine ⟨by decide, by decide, ?_, ?_, ?_⟩
  · intro raw
    refine ⟨?_, ?_, ?_, ?_⟩
    · simp +decide only [lshwSizeGb, if_true, if_false]
      rw [intDivQ, Rat.divInt_eq_div]
      norm_num
    · simp +decide only [lshwSizeGb, if_true, if_false]
      rw [intDivQ, Rat.divInt_eq_div]
      norm_num
    · simp +decide only [lshwSizeGb, if_true, if_false]
      rw [intDivQ, Rat.divInt_eq_div]
      norm_num
    · simp +decide only [lshwSizeGb, if_true, if_false]
  · intro e
    simp only [resMkNodes]
    split
    · rw [intDivQ, Rat.divInt_eq_div]
      norm_num
    · rfl
  · intro size
    simp only [storageSizeGb]
    split
    · rw [intDivQ, Rat.divInt_eq_div]
      norm_num
    · rfl

/-! ### NIC grouping (`_group_nics_by_card`) -/

/-- One network port record as consumed by `_group_nics_by_card`. -/
structure Nic where
  mac : Option String
  product : Option String
  vendor : Option String
  sriov_max_vf : Option Int
  numa_node : Option Int
deriving DecidableEq, Repr

/-- One physical adapter card. -/
structure NicCard where
  model : String
  ports : Nat
  macs : List String
  sriov_max_vf : Int
  numa_node : Int
deriving DecidableEq, Repr

/-- `(n.get("mac", "") or "").lower().strip()`. -/
def normMac (n : Nic) : String := pyStrip (pyToLower (n.mac.getD ""))

/-- The card identifier `mac[:14]`: the first five octets. -/
def macKey (n : Nic) : String := String.mk ((normMac n).toList.take 14)

/-- `groups.setdefault(prefix, []).append(n)` on an insertion-ordered
association list (the Python dict preserves insertion order). -/
def addGroup (gs : List (String × List Nic)) (key : String) (n : Nic) :
    List (String × List Nic) :=
  match gs with
  | [] => [(key, [n])]
  | g :: rest => if g.1 = key then (g.1, g.2 ++ [n]) :: rest else g :: addGroup rest key n

/-- One iteration of the `_group_nics_by_card` port loop. -/
def nicSplitStep (acc : List (String × List Nic) × List Nic) (n : Nic) :
    List (String × List Nic) × List Nic :=
  let mac := normMac n
  if 14 ≤ mac.length then (addGroup acc.1 (macKey n) n, acc.2)
  else (acc.1, acc.2 ++ [n])

/-- The grouping loop: MAC-prefix groups and the ungrouped (short-MAC)
ports, in insertion order. -/
def nicGroups (nics : List Nic) : List (String × List Nic) × List Nic :=
  nics.foldl nicSplitStep ([], [])

/-- The shared vendor/product card label. -/
def nicModelStr (product vendor : String) : String :=
  if product ≠ "" ∧ vendor ≠ "" ∧ ¬ strContains (pyToLower product) (pyToLower vendor) then
    vendor ++ " " ++ product
  else if product ≠ "" then product
  else if vendor ≠ "" then vendor
  else "--"

/-- Python `max` over a list of ints (the generator is non-empty in the
source; `0` is a dummy for the impossible empty case). -/
def listMaxInt : List Int → Int
  | [] => 0
  | x :: xs => xs.foldl max x

/-- A multi-port card from one MAC-prefix group; the first port is the
representative. -/
def mkCard (g : String × List Nic) : NicCard :=
  { model :=
      nicModelStr ((g.2.headD ⟨none, none, none, none, none⟩).product.getD "")
        ((g.2.headD ⟨none, none, none, none, none⟩).vendor.getD "")
    ports := g.2.length
    macs := (g.2.map (fun p => p.mac.getD "")).insertionSort (· ≤ ·)
    sriov_max_vf := listMaxInt (g.2.map (fun p => p.sriov_max_vf.getD 0))
    numa_node := (g.2.headD ⟨none, none, none, none, none⟩).numa_node.getD (-1) }

/-- A single-port card from an ungrouped (malformed-MAC) port. -/
def mkSingleCard (n : Nic) : NicCard :=
  { model := nicModelStr (n.product.getD "") (n.vendor.getD "")
    ports := 1
    macs := [n.mac.getD ""]
    sriov_max_vf := n.sriov_max_vf.getD 0
    numa_node := n.numa_node.getD (-1) }

/-- `_group_nics_by_card`. -/
def group_nics_by_card (nics : List Nic) : List NicCard :=
  if nics.isEmpty then []
  else (nicGroups nics).1.map mkCard ++ (nicGroups nics).2.map mkSingleCard

/-- Association lookup on the group list. -/
def assocKeyGet (gs : List (String × List Nic)) (P : String) : Option (List Nic) :=
  (gs.find? (fun g => g.1 == P)).map Prod.snd

theorem assocKeyGet_nil (P : String) : assocKeyGet [] P = none := rfl

theorem assocKeyGet_cons (g : String × List Nic) (rest : List (String × List Nic))
    (P : String) :
    assocKeyGet (g :: rest) P =
      if g.1 = P then some g.2 else assocKeyGet rest P := by
  simp only [assocKeyGet, List.find?]
  by_cases h : g.1 = P
  · rw [if_pos h]
    have hb : (g.1 == P) = true := by simpa using h
    rw [hb]
    rfl
  · rw [if_neg h]
    have hb : (g.1 == P) = false := by simpa using h
    rw [hb]

theorem assocKeyGet_addGroup (key : String) (n : Nic) (P : String) :
    ∀ gs, assocKeyGet (addGroup gs key n) P =
      if P = key then some ((assocKeyGet gs P).getD [] ++ [n]) else assocKeyGet gs P := by
  intro gs
  induction gs with
  | nil =>
    show assocKeyGet [(key, [n])] P = _
    rw [assocKeyGet_cons, assocKeyGet_nil]
    by_cases hP : P = key
    · rw [if_pos (hP.symm), if_pos hP]
      rfl
    · rw [if_neg (fun h => hP h.symm), if_neg hP]
  | cons g rest ih =>
    simp only [addGroup]
    by_cases hg : g.1 = key
    · rw [if_pos hg, assocKeyGet_cons, assocKeyGet_cons]
      by_cases hP : P = key
      · have hgP : g.1 = P := hg.trans hP.symm
        rw [if_pos hP]
        simp only [hgP, if_pos rfl]
        rfl
      · have hgP : ¬ (g.1 = P) := fun h => hP ((h.symm.trans hg))
        rw [if_neg hgP, if_neg hgP, if_neg hP]
    · rw [if_neg hg, assocKeyGet_cons, assocKeyGet_cons, ih]
      by_cases hgP : g.1 = P
      · have hPk : ¬ (P = key) := fun h => hg (hgP.trans h)
        rw [if_pos hgP, if_pos hgP, if_neg hPk]
      · rw [if_neg hgP, if_neg hgP]

theorem addGroup_keys (key : String) (n : Nic) :
    ∀ gs : List (String × List Nic), (addGroup gs key n).map Prod.fst =
      if key ∈ gs.map Prod.fst then gs.map Prod.fst else gs.map Prod.fst ++ [key] := by
  intro gs
  induction gs with
  | nil => simp [addGroup]
  | cons g rest ih =>
    simp only [addGroup]
    by_cases hg : g.1 = key
    · rw [if_pos hg]
      have hmem : key ∈ (g :: rest).map Prod.fst := by
        rw [List.map_cons, hg]
        exact List.mem_cons_self _ _
      rw [if_pos hmem]
      rfl
    · rw [if_neg hg]
      rw [List.map_cons, List.map_cons, ih]
      by_cases hk : key ∈ rest.map Prod.fst
      · rw [if_pos hk, if_pos (List.mem_cons_of_mem _ hk)]
      · have hnot : ¬ key ∈ g.1 :: rest.map Prod.fst := by
          intro h
          rcases List.mem_cons.mp h with he | hm
          · exact hg he.symm
          · exact hk hm
        rw [if_neg hk, if_neg hnot]
        rfl

theorem addGroup_keys_nodup (key : String) (n : Nic) (gs : List (String × List Nic))
    (h : (gs.map Prod.fst).Nodup) : ((addGroup gs key n).map Prod.fst).Nodup := by
  rw [addGroup_keys]
  split
  · exact h
  · rename_i hk
    rw [List.nodup_append]
    exact ⟨h, List.nodup_singleton _, by simpa [List.disjoint_singleton] using hk⟩

theorem assocKeyGet_mem (P : String) (G : List Nic) :
    ∀ gs, assocKeyGet gs P = some G → (P, G) ∈ gs := by
  intro gs
  induction gs with
  | nil => intro h; cases h
  | cons g rest ih =>
    intro h
    rw [assocKeyGet_cons] at h
    split at h
    · rename_i hg
      have : g = (P, G) := by
        rcases g with ⟨a, b⟩
        cases hg
        cases Option.some_inj.mp h
        rfl
      rw [← this]
      exact List.mem_cons_self _ _
    · exact List.mem_cons_of_mem _ (ih h)

theorem assoc_filter_unique (P : String) (G : List Nic) :
    ∀ gs : List (String × List Nic), (gs.map Prod.fst).Nodup → (P, G) ∈ gs →
      gs.filter (fun g => g.1 == P) = [(P, G)] := by
  intro gs
  induction gs with
  | nil => intro _ h; cases h
  | cons g rest ih =>
    intro hnd hmem
    rw [List.map_cons, List.nodup_cons] at hnd
    rcases List.mem_cons.mp hmem with he | hm
    · rw [← he]
      rw [List.filter_cons_of_pos (by simp)]
      have hrest : rest.filter (fun g => g.1 == P) = [] := by
        rw [List.filter_eq_nil_iff]
        intro q hq hbeq
        apply hnd.1
        rw [← he]
        simp only [List.mem_map]
        exact ⟨q, hq, by simpa using hbeq⟩
      rw [hrest]
    · have hgP : (g.1 == P) = false := by
        have : g.1 ≠ P := by
          intro h
          apply hnd.1
          rw [h]
          exact List.mem_map.mpr ⟨(P, G), hm, rfl⟩
        simpa using this
      rw [List.filter_cons_of_neg (by simp [hgP])]
      exact ih hnd.2 hm

theorem nicGroups_aux (P : String) (nics : List Nic) :
    ∀ gs ug,
      ((assocKeyGet ((nics.foldl nicSplitStep (gs, ug)).1) P).getD [] =
        (assocKeyGet gs P).getD [] ++
          nics.filter (fun n => decide (14 ≤ (normMac n).length) && (macKey n == P))) ∧
      (assocKeyGet ((nics.foldl nicSplitStep (gs, ug)).1) P = none ↔
        (assocKeyGet gs P = none ∧
          nics.filter (fun n => decide (14 ≤ (normMac n).length) && (macKey n == P)) = [])) := by
  induction nics with
  | nil => intro gs ug; simp
  | cons n t ih =>
    intro gs ug
    rw [List.foldl_cons]
    simp only [nicSplitStep]
    by_cases hlong : 14 ≤ (normMac n).length
    · rw [if_pos hlong]
      by_cases hP : macKey n = P
      · have hpred : (decide (14 ≤ (normMac n).length) && (macKey n == P)) = true := by
          simp [hlong, hP]
        have hfc : (n :: t).filter
            (fun n => decide (14 ≤ (normMac n).length) && (macKey n == P)) =
            n :: t.filter (fun n => decide (14 ≤ (normMac n).length) && (macKey n == P)) :=
          List.filter_cons_of_pos hpred
        rw [hfc]
        obtain ⟨ih1, ih2⟩ := ih (addGroup gs (macKey n) n) ug
        have hadd := assocKeyGet_addGroup (macKey n) n P gs
        rw [if_pos hP.symm] at hadd
        constructor
        · rw [ih1, hadd]
          simp only [Option.getD_some]
          rw [List.append_assoc]
          rfl
        · rw [ih2, hadd]
          constructor
          · rintro ⟨hnone, _⟩; cases hnone
          · rintro ⟨_, hcons⟩; cases hcons
      · have hpred : (decide (14 ≤ (normMac n).length) && (macKey n == P)) = false := by
          simp [hP]
        have hfc : (n :: t).filter
            (fun n => decide (14 ≤ (normMac n).length) && (macKey n == P)) =
            t.filter (fun n => decide (14 ≤ (normMac n).length) && (macKey n == P)) :=
          List.filter_cons_of_neg (by simp [hpred])
        rw [hfc]
        obtain ⟨ih1, ih2⟩ := ih (addGroup gs (macKey n) n) ug
        have hadd := assocKeyGet_addGroup (macKey n) n P gs
        rw [if_neg (fun h => hP h.symm)] at hadd
        rw [ih1, ih2, hadd]
        exact ⟨rfl, Iff.rfl⟩
    · rw [if_neg hlong]
      have hpred : (decide (14 ≤ (normMac n).length) && (macKey n == P)) = false := by
        simp [hlong]
      have hfc : (n :: t).filter
          (fun n => decide (14 ≤ (normMac n).length) && (macKey n == P)) =
          t.filter (fun n => decide (14 ≤ (normMac n).length) && (macKey n == P)) :=
        List.filter_cons_of_neg (by simp [hpred])
      rw [hfc]
      obtain ⟨ih1, ih2⟩ := ih gs (ug ++ [n])
      rw [ih1, ih2]
      exact ⟨rfl, Iff.rfl⟩

theorem nicGroups_assoc (P : String) (nics : List Nic)
    (hne : nics.filter (fun n => decide (14 ≤ (normMac n).length) && (macKey n == P)) ≠ []) :
    assocKeyGet (nicGroups nics).1 P =
      some (nics.filter (fun n => decide (14 ≤ (normMac n).length) && (macKey n == P))) := by
  obtain ⟨h1, h2⟩ := nicGroups_aux P nics [] []
  have hnn : assocKeyGet ((nics.foldl nicSplitStep ([], [])).1) P ≠ none := by
    intro hq
    rw [h2] at hq
    exact hne hq.2
  obtain ⟨l, hl⟩ := Option.ne_none_iff_exists'.mp hnn
  rw [hl] at h1
  simp only [Option.getD_some, assocKeyGet_nil, Option.getD_none, List.nil_append] at h1
  show assocKeyGet ((nics.foldl nicSplitStep ([], [])).1) P = _
  rw [hl, h1]

theorem nicGroups_keys_nodup (nics : List Nic) :
    ∀ gs ug, (gs.map Prod.fst).Nodup →
      (((nics.foldl nicSplitStep (gs, ug)).1).map Prod.fst).Nodup := by
  induction nics with
  | nil => intro gs ug h; exact h
  | cons n t ih =>
    intro gs ug h
    rw [List.foldl_cons]
    simp only [nicSplitStep]
    split
    · exact ih _ _ (addGroup_keys_nodup _ _ _ h)
    · exact ih _ _ h

theorem nicGroups_snd (nics : List Nic) :
    ∀ gs ug, (nics.foldl nicSplitStep (gs, ug)).2 =
      ug ++ nics.filter (fun n => !(decide (14 ≤ (normMac n).length))) := by
  induction nics with
  | nil => intro gs ug; simp
  | cons n t ih =>
    intro gs ug
    rw [List.foldl_cons]
    simp only [nicSplitStep]
    by_cases hlong : 14 ≤ (normMac n).length
    · rw [if_pos hlong, ih, List.filter_cons_of_neg (by simp [hlong])]
    · rw [if_neg hlong, ih, List.filter_cons_of_pos (by simp [hlong]), List.append_assoc]
      rfl

/-- C8: every non-empty set of ports whose normalized MACs share the same
first five octets forms exactly one group, whose card has port count equal
to the set's size; every port whose MAC is shorter than the minimum length
becomes its own single-port card. -/
theorem c8_nic_grouping (nics : List Nic) (P : String) :
    ((nics.filter (fun n => decide (14 ≤ (normMac n).length) && (macKey n == P))) ≠ [] →
      ((nicGroups nics).1.filter (fun g => g.1 == P) =
        [(P, nics.filter (fun n => decide (14 ≤ (normMac n).length) && (macKey n == P)))] ∧
      mkCard (P, nics.filter (fun n => decide (14 ≤ (normMac n).length) && (macKey n == P)))
        ∈ group_nics_by_card nics ∧
      (mkCard (P, nics.filter
        (fun n => decide (14 ≤ (normMac n).length) && (macKey n == P)))).ports =
        (nics.filter (fun n => decide (14 ≤ (normMac n).length) && (macKey n == P))).length)) ∧
    (∀ n ∈ nics, ¬ (14 ≤ (normMac n).length) →
      mkSingleCard n ∈ group_nics_by_card nics ∧ (mkSingleCard n).ports = 1) := by
  constructor
  · intro hne
    have hassoc := nicGroups_assoc P nics hne
    have hmem := assocKeyGet_mem P _ _ hassoc
    have hnodup : (((nicGroups nics).1).map Prod.fst).Nodup :=
      nicGroups_keys_nodup nics [] [] (by simp)
    have hfilter := assoc_filter_unique P _ _ hnodup hmem
    have hnics : nics.isEmpty = false := by
      rcases hfe : nics.filter
          (fun n => decide (14 ≤ (normMac n).length) && (macKey n == P)) with _ | ⟨a, l⟩
      · exact absurd hfe hne
      · have ha : a ∈ nics := List.mem_of_mem_filter (hfe ▸ List.mem_cons_self a l)
        rcases nics with _ | _
        · cases ha
        · rfl
    refine ⟨hfilter, ?_, rfl⟩
    unfold group_nics_by_card
    rw [hnics]
    show _ ∈ _ ++ _
    exact List.mem_append_left _ (List.mem_map.mpr ⟨_, hmem, rfl⟩)
  · intro n hn hshort
    have hnics : nics.isEmpty = false := by
      rcases nics with _ | _
      · cases hn
      · rfl
    refine ⟨?_, rfl⟩
    unfold group_nics_by_card
    rw [hnics]
    show _ ∈ _ ++ _
    refine List.mem_append_right _ (List.mem_map.mpr ⟨n, ?_, rfl⟩)
    have hsnd : (nicGroups nics).2 =
        [] ++ nics.filter (fun n => !(decide (14 ≤ (normMac n).length))) :=
      nicGroups_snd nics [] []
    rw [hsnd]
    simp only [List.nil_append]
    exact List.mem_filter.mpr ⟨hn, by simp [hshort]⟩

/-- Witness for C8: two ports sharing the prefix `aa:bb:cc:dd:ee` form one
two-port card, and a short-MAC port becomes a single-port card. -/
theorem c8_nic_grouping_witness :
    (mkCard ("aa:bb:cc:dd:ee",
        [⟨some "AA:BB:CC:DD:EE:01", some "X710", some "Intel", none, none⟩,
         ⟨some "aa:bb:cc:dd:ee:02", some "X710", some "Intel", none, none⟩]) ∈
      group_nics_by_card
        [⟨some "AA:BB:CC:DD:EE:01", some "X710", some "Intel", none, none⟩,
         ⟨some "aa:bb:cc:dd:ee:02", some "X710", some "Intel", none, none⟩,
         ⟨some "0a:0b", none, none, none, none⟩]) ∧
    (mkCard ("aa:bb:cc:dd:ee",
        [⟨some "AA:BB:CC:DD:EE:01", some "X710", some "Intel", none, none⟩,
         ⟨some "aa:bb:cc:dd:ee:02", some "X710", some "Intel", none, none⟩])).ports = 2 ∧
    mkSingleCard (⟨some "0a:0b", none, none, none, none⟩ : Nic) ∈
      group_nics_by_card
        [⟨some "AA:BB:CC:DD:EE:01", some "X710", some "Intel", none, none⟩,
         ⟨some "aa:bb:cc:dd:ee:02", some "X710", some "Intel", none, none⟩,
         ⟨some "0a:0b", none, none, none, none⟩] := by
  have h := c8_nic_grouping
    [⟨some "AA:BB:CC:DD:EE:01", some "X710", some "Intel", none, none⟩,
     ⟨some "aa:bb:cc:dd:ee:02", some "X710", some "Intel", none, none⟩,
     ⟨some "0a:0b", none, none, none, none⟩] "aa:bb:cc:dd:ee"
  have h1 := h.1 (by decide)
  have h2 := h.2 ⟨some "0a:0b", none, none, none, none⟩ (by decide) (by decide)
  exact ⟨by simpa using h1.2.1, by simpa using h1.2.2, h2.1⟩
